import Mathlib

/-!
# Verification of the finance-tracker statement pipeline

A shallow embedding of the statement ingestion and transaction
intelligence pipeline of the repository:

* `BankStatementService` (`categorizeTransactions`,
  `smartCategorizeTransactions`, `normalizeDescription`,
  `basicCategorization`, `extractMerchantFromDescription`,
  `findRecurringPayments`, `findUnusualTransactions`,
  `calculateFrequency`, `parseFile`),
* `PDFParser` (`detectBankType`, `parseAmount`),
* `CSVParser` (`parseAmount`, row extraction),
* `ExcelParser` (`extractTransactionsFromData`, `looksLikeHeaderRow`,
  `parseExcelRow`, `parseAmount`).

Modelling conventions:

* JavaScript numbers are modelled by `ℚ` (exact arithmetic; none of the
  verified properties depends on binary floating-point rounding).  A
  `parseFloat` result is a `JsFloat`: a finite `ℚ` or one of the two
  infinities (from the `Infinity` literal); stored record amounts take
  the `ℚ` image (`JsFloat.toRat`).
* JavaScript `Date` values are modelled by their `getTime()` value, an
  `Int` count of milliseconds.
* JavaScript's `str.toLowerCase()` is modelled by an ASCII lowering
  (the relevant source strings are ASCII).
* Calls into external npm libraries (`pdf-parse`, `xlsx`, `csv-parser`,
  `date-fns`) are modelled as explicit parameters (`Libs`), quantified
  over in the theorems.  Code of the repository itself is translated.
* A promise that may reject is modelled by `Option`/`Except`.
-/

namespace FinanceTracker

/-! ## JavaScript string primitives -/

/-- ASCII model of JS `String.prototype.toLowerCase` on one character
(`Char.toLower` maps `A`-`Z` to `a`-`z` and is the identity elsewhere). -/
def lowChar (c : Char) : Char := c.toLower

/-- JS `s.toLowerCase()`. -/
def jsToLower (s : String) : String := ⟨s.data.map lowChar⟩

/-- Membership of a character in a list of characters, as a `Bool`. -/
def charIn (c : Char) (l : List Char) : Bool := l.any (fun d => c = d)

/-- `needle.isPrefixOf hay` at some position: JS `hay.includes(needle)`
restricted to character lists. -/
def hasSubList (hay needle : List Char) : Bool :=
  match hay with
  | [] => needle.isEmpty
  | _ :: t => needle.isPrefixOf hay || hasSubList t needle

/-- JS `hay.includes(needle)`. -/
def hasSub (hay needle : String) : Bool := hasSubList hay.data needle.data

/-- JS `\d` character class. -/
def isDigitCh (c : Char) : Bool := '0' ≤ c && c ≤ '9'

/-- JS `\w` character class (`[A-Za-z0-9_]`). -/
def isWordCh (c : Char) : Bool := c.isAlpha || isDigitCh c || c = '_'

/-- JS `\s` character class (modelled by `Char.isWhitespace`). -/
def isWsCh (c : Char) : Bool := c.isWhitespace

/-- One step of `replace(/\s+/g, ' ')`: collapse every maximal run of
whitespace characters into a single space. -/
def squeezeWs : List Char → List Char
  | [] => []
  | [c] => if isWsCh c then [' '] else [c]
  | c :: c' :: rest =>
    if isWsCh c then
      (if isWsCh c' then squeezeWs (c' :: rest) else ' ' :: squeezeWs (c' :: rest))
    else c :: squeezeWs (c' :: rest)

/-- Removal of trailing whitespace (the right half of JS
`String.prototype.trim`). -/
def trimRight : List Char → List Char
  | [] => []
  | c :: rest =>
    match trimRight rest with
    | [] => if isWsCh c then [] else [c]
    | t :: ts => c :: t :: ts

/-- JS `String.prototype.trim` on character lists: drop leading and
trailing whitespace. -/
def trimList (l : List Char) : List Char :=
  trimRight (l.dropWhile isWsCh)

/-- JS `s.trim()`. -/
def jsTrim (s : String) : String := ⟨trimList s.data⟩

/-- Split a character list into maximal runs of non-whitespace
characters (the token list of JS `s.trim().split(/\s+/)`; the sole
difference is that for a blank input JS yields `[""]` while this yields
`[]`, and both joined by spaces give `""`). -/
def wsTokens : List Char → List (List Char)
  | [] => []
  | c :: rest =>
    if isWsCh c then wsTokens rest
    else
      match wsTokens rest with
      | [] => [[c]]
      | t :: ts =>
        match rest with
        | [] => [[c]]
        | r :: _ => if isWsCh r then [c] :: t :: ts else (c :: t) :: ts

/-- JS `s.trim().split(/\s+/)` as a list of strings. -/
def jsWords (s : String) : List String := (wsTokens s.data).map (fun l => ⟨l⟩)

/-- JS `x || d` for an optional string (`undefined`, `null` and `""` are
falsy). -/
def jsOrStr (x : Option String) (d : String) : String :=
  match x with
  | some s => if s = "" then d else s
  | none => d

/-- JS `x || d` for an optional number (`undefined`, `null` and `0` are
falsy). -/
def jsOrQ (x : Option ℚ) (d : ℚ) : ℚ :=
  match x with
  | some q => if q = 0 then d else q
  | none => d

/-! ## Canonical transaction data model -/

/-- Transaction direction. -/
inductive TxType where
  | debit
  | credit
deriving DecidableEq, Repr

/-- An `ExtractedTransaction`: output of the format extractors, input of
the classification orchestrator.  `date` is the JS `Date.getTime()`
value in milliseconds. -/
structure Tx where
  date : Int
  description : String
  amount : ℚ
  type : TxType
  balance : Option ℚ := none
  reference : Option String := none
deriving DecidableEq, Repr

/-- A transaction after the classification orchestrator ran: the
`category` / `merchant` / `confidence` fields of the TypeScript object
are optional, so they are modelled with `Option`. -/
structure CatTx where
  date : Int
  description : String
  amount : ℚ
  type : TxType
  balance : Option ℚ
  reference : Option String
  category : Option String
  merchant : Option String
  confidence : Option ℚ
deriving DecidableEq, Repr

/-- Spread of an input transaction together with assigned
classification fields (`{ ...transaction, category, merchant,
confidence }`). -/
def mkCatTx (t : Tx) (c m : String) (q : ℚ) : CatTx :=
  { date := t.date, description := t.description, amount := t.amount,
    type := t.type, balance := t.balance, reference := t.reference,
    category := some c, merchant := some m, confidence := some q }

/-! ## `normalizeDescription` -/

/-- `BankStatementService.normalizeDescription`: lowercase, strip
digits (`replace(/\d+/g, '')`), replace every character that is neither
a word character nor whitespace by a space (`replace(/[^\w\s]/g, ' ')`),
collapse whitespace runs (`replace(/\s+/g, ' ')`), and trim. -/
def normalizeDescription (description : String) : String :=
  ⟨trimList (squeezeWs
    (((description.data.map lowChar).filter (fun c => !isDigitCh c)).map
      (fun c => if isWordCh c || isWsCh c then c else ' ')))⟩

/-! ## Fallback classifier -/

/-- The keyword table of `BankStatementService.basicCategorization`. -/
def categoryTable : List (String × List String) :=
  [ ("Food & Dining", ["restaurant", "food", "lunch", "dinner", "cafe", "pizza", "chicken", "mcdonald", "kfc"]),
    ("Transportation", ["uber", "taxi", "bus", "transport", "fuel", "petrol", "gas"]),
    ("Shopping", ["shoprite", "mall", "store", "market", "purchase", "buy"]),
    ("Bills & Utilities", ["electric", "water", "phone", "internet", "dstv", "cable", "subscription"]),
    ("Banking", ["bank", "atm", "transfer", "fee", "charge"]),
    ("Healthcare", ["hospital", "clinic", "pharmacy", "medical", "doctor"]),
    ("Entertainment", ["cinema", "movie", "game", "entertainment", "music"]) ]

/-- `BankStatementService.basicCategorization`: first category of the
table one of whose keywords occurs in the lowercased description,
defaulting to `"Other"`. -/
def basicCategorization (description : String) : String :=
  let lowerDesc := jsToLower description
  match categoryTable.find? (fun p => p.2.any (fun kw => hasSub lowerDesc kw)) with
  | some p => p.1
  | none => "Other"

/-- `BankStatementService.extractMerchantFromDescription`: the first
three whitespace-separated words of the description. -/
def extractMerchantFromDescription (description : String) : String :=
  String.intercalate " " ((jsWords description).take 3)

example : normalizeDescription "NETFLIX *Payment  #1234" = "netflix payment" := rfl
example : normalizeDescription "" = "" := rfl
example : basicCategorization "UBER TRIP 29" = "Transportation" := rfl
example : extractMerchantFromDescription " NETFLIX  PAY 123 xyz" = "NETFLIX PAY 123" := rfl

/-! ## The external classifier, as an oracle

`AIService.categorizeTransaction` resolves with
`{category, confidence} | null` or rejects (timeout / API error);
`AIService.extractMerchant` resolves with `{name, confidence} | null`
or rejects.  One *attempt* of the orchestrator performs the category
call and then the merchant call; if either rejects the whole attempt
rejects (the `try` block catches it).  An attempt is therefore modelled
as `none` (some call threw) or `some (cat, mer)` with the two possibly
`null` payloads. -/

/-- Resolved value of `categorizeTransaction`. -/
structure CatResp where
  category : String
  confidence : ℚ
deriving DecidableEq, Repr

/-- Resolved value of `extractMerchant` (the `confidence` field is
never read by the orchestrator and is omitted). -/
structure MerResp where
  name : String
deriving DecidableEq, Repr

/-- Outcome of one classification attempt for one transaction. -/
abbrev AIAttempt := Option (Option CatResp × Option MerResp)

/-- External-classifier behaviour for the direct strategy, indexed by
(global transaction index, attempt number). -/
abbrev Oracle := Nat → Nat → AIAttempt

/-- External-classifier behaviour for the smart strategy, indexed by
position in the unique-transaction list (it makes a single attempt). -/
abbrev SOracle := Nat → AIAttempt

/-- The fallback classification result (`confidence: 0.3`). -/
def fallbackCat (t : Tx) : CatTx :=
  mkCatTx t (basicCategorization t.description)
    (extractMerchantFromDescription t.description) 0.3

/-- Classification fields assembled from a successful attempt:
`category?.category || 'Other'`,
`merchant?.name || extractMerchantFromDescription(description)`,
`category?.confidence || 0.5`. -/
def aiCat (t : Tx) (cat : Option CatResp) (mer : Option MerResp) : CatTx :=
  mkCatTx t
    (jsOrStr (cat.map CatResp.category) "Other")
    (jsOrStr (mer.map MerResp.name) (extractMerchantFromDescription t.description))
    (jsOrQ (cat.map CatResp.confidence) 0.5)

/-! ## Direct strategy (`categorizeTransactions`, ledgers of ≤ 100)

Constants from the source: `BATCH_SIZE = 5`, `MAX_RETRIES = 1` (so up
to two attempts per transaction), `MAX_AI_CALLS = min(30, n)`. -/

/-- The retry loop of the direct strategy: attempt 0, and on failure
attempt 1 (`MAX_RETRIES = 1`). -/
def tryAttempts (o : Oracle) (gi : Nat) : AIAttempt :=
  match o gi 0 with
  | some r => some r
  | none => o gi 1

/-- Per-transaction work of the direct strategy: transactions with
global index below `MAX_AI_CALLS` go through the retry loop, the rest
take the fallback directly.  (A rejected batch entry is also replaced
by the fallback in the `Promise.allSettled` post-processing; attempt
failure already covers that path.) -/
def processTx (o : Oracle) (maxAi gi : Nat) (t : Tx) : CatTx :=
  if gi < maxAi then
    match tryAttempts o gi with
    | some (cat, mer) => aiCat t cat mer
    | none => fallbackCat t
  else fallbackCat t

/-- Number of external-classifier attempts made for the transaction at
global index `gi` (instrumentation: 0 when the index is beyond
`MAX_AI_CALLS`, 1 when the first attempt succeeds, 2 otherwise). -/
def txAttempts (o : Oracle) (maxAi gi : Nat) : Nat :=
  if gi < maxAi then (match o gi 0 with | some _ => 1 | none => 2) else 0

/-- One batch of the direct strategy: the settled results are pushed in
batch order; the second component counts external attempts. -/
def batchProcess (o : Oracle) (maxAi gi : Nat) (batch : List Tx) : List CatTx × Nat :=
  ((batch.enumFrom gi).map (fun p => processTx o maxAi p.1 p.2),
   ((batch.enumFrom gi).map (fun p => txAttempts o maxAi p.1)).sum)

/-- The batch loop of the direct strategy (`BATCH_SIZE = 5`). -/
def directLoop (o : Oracle) (maxAi : Nat) : Nat → List Tx → List CatTx × Nat
  | gi, t1 :: t2 :: t3 :: t4 :: t5 :: rest =>
    let b := batchProcess o maxAi gi [t1, t2, t3, t4, t5]
    let r := directLoop o maxAi (gi + 5) rest
    (b.1 ++ r.1, b.2 + r.2)
  | gi, l => batchProcess o maxAi gi l

/-- `BankStatementService.categorizeTransactions` restricted to its
direct path, with the number of external attempts as instrumentation. -/
def categorizeDirectRun (o : Oracle) (txs : List Tx) : List CatTx × Nat :=
  directLoop o (min 30 txs.length) 0 txs

/-! ## Smart strategy (`smartCategorizeTransactions`, ledgers of > 100) -/

/-- Entry of `aiCategorizationMap`. -/
structure AIEntry where
  category : String
  merchant : String
  confidence : ℚ
deriving DecidableEq, Repr

/-- `aiCategorizationMap`, a JS `Map` in insertion order. -/
abbrev AMap := List (String × AIEntry)

/-- JS `map.get(k)`. -/
def amapGet : AMap → String → Option AIEntry
  | [], _ => none
  | (k', v) :: rest, k => if k' = k then some v else amapGet rest k

/-- JS `map.set(k, v)`: overwrite in place or append. -/
def amapSet : AMap → String → AIEntry → AMap
  | [], k, v => [(k, v)]
  | (k', v') :: rest, k, v =>
    if k' = k then (k', v) :: rest else (k', v') :: amapSet rest k v

/-- Map entry on attempt success. -/
def aiEntryOk (t : Tx) (cat : Option CatResp) (mer : Option MerResp) : AIEntry :=
  { category := jsOrStr (cat.map CatResp.category) "Other",
    merchant := jsOrStr (mer.map MerResp.name) (extractMerchantFromDescription t.description),
    confidence := jsOrQ (cat.map CatResp.confidence) 0.5 }

/-- Map entry written by the `catch` branch (fallback, confidence 0.3). -/
def aiEntryFallback (t : Tx) : AIEntry :=
  { category := basicCategorization t.description,
    merchant := extractMerchantFromDescription t.description,
    confidence := 0.3 }

/-- Loop state of the AI-processing phase of the smart strategy:
`aiCategorizationMap`, `consecutiveFailures`, and (instrumentation) the
number of transactions for which the external classifier was invoked. -/
structure SmartSt where
  map : AMap
  fails : Nat
  calls : Nat
deriving DecidableEq, Repr

/-- Body of the inner `for (const transaction of batch)` loop: skip if
the normalized key is already present, otherwise invoke the classifier;
on success store the AI entry and reset `consecutiveFailures`, on
failure store the fallback entry and increment it. -/
def smartStep (o : SOracle) (idx : Nat) (t : Tx) (st : SmartSt) : SmartSt :=
  let k := normalizeDescription t.description
  if (amapGet st.map k).isSome then st
  else
    match o idx with
    | some (cat, mer) =>
      { map := amapSet st.map k (aiEntryOk t cat mer), fails := 0, calls := st.calls + 1 }
    | none =>
      { map := amapSet st.map k (aiEntryFallback t), fails := st.fails + 1, calls := st.calls + 1 }

/-- The batch loop of the smart strategy (`BATCH_SIZE = 2`,
`MAX_CONSECUTIVE_FAILURES = 3`).  `timeout i` tells whether
`Date.now() - startTime > AI_PROCESSING_TIMEOUT` held when the batch
starting at index `i` was reached; both the timeout check and the
circuit-breaker check happen at batch boundaries only. -/
def smartLoop (o : SOracle) (timeout : Nat → Bool) : Nat → List Tx → SmartSt → SmartSt
  | _, [], st => st
  | i, u :: rest, st =>
    if timeout i then st
    else if 3 ≤ st.fails then st
    else
      match rest with
      | [] => smartStep o i u st
      | v :: rest' => smartLoop o timeout (i + 2) rest' (smartStep o (i + 1) v (smartStep o i u st))

/-- The unique-description list: one original description per distinct
normalized key, in order of first appearance (`uniqueDescriptions`). -/
def uniqueDescsAux (txs : List Tx) (seen : List String) : List String :=
  match txs with
  | [] => []
  | t :: rest =>
    let k := normalizeDescription t.description
    if k ∈ seen then uniqueDescsAux rest seen
    else t.description :: uniqueDescsAux rest (k :: seen)

/-- `Array.from(uniqueDescriptions)`. -/
def uniqueDescs (txs : List Tx) : List String := uniqueDescsAux txs []

/-- `uniqueTransactions`: the first transaction carrying each unique
description (`transactions.find(t => t.description === desc)!`; the
lookup always succeeds because the description was taken from the
list). -/
def uniqueTransactions (txs : List Tx) : List Tx :=
  (uniqueDescs txs).filterMap (fun d => txs.find? (fun t => t.description = d))

/-- Fan-out for one transaction: look up its normalized key; a hit
fans out the stored entry (with JS `||` falsiness on each field), a
miss falls back to the per-transaction heuristics with confidence
0.3. -/
def fanOutTx (m : AMap) (t : Tx) : CatTx :=
  match amapGet m (normalizeDescription t.description) with
  | some e =>
    mkCatTx t
      (if e.category = "" then basicCategorization t.description else e.category)
      (if e.merchant = "" then extractMerchantFromDescription t.description else e.merchant)
      (if e.confidence = 0 then 0.3 else e.confidence)
  | none =>
    mkCatTx t (basicCategorization t.description)
      (extractMerchantFromDescription t.description) 0.3

/-- Fan-out phase of the smart strategy. -/
def fanOut (m : AMap) (txs : List Tx) : List CatTx :=
  txs.map (fanOutTx m)

/-- `BankStatementService.smartCategorizeTransactions`, with the final
loop state as instrumentation. -/
def smartCategorizeRun (o : SOracle) (timeout : Nat → Bool) (txs : List Tx) :
    List CatTx × SmartSt :=
  let st := smartLoop o timeout 0 (uniqueTransactions txs) ⟨[], 0, 0⟩
  (fanOut st.map txs, st)

/-- `BankStatementService.categorizeTransactions`: ledgers of more than
100 transactions take the smart strategy (which performs single
attempts, hence attempt index 0), the rest the direct strategy. -/
def categorizeTransactions (o : Oracle) (timeout : Nat → Bool) (txs : List Tx) : List CatTx :=
  if 100 < txs.length then (smartCategorizeRun (fun i => o i 0) timeout txs).1
  else (categorizeDirectRun o txs).1

/-! ## Analytics aggregator (`detectPatterns` helpers) -/

/-- JS truthiness of `t.merchant` (absent or empty string is falsy). -/
def truthyMerchant (t : CatTx) : Bool :=
  match t.merchant with
  | some s => s ≠ ""
  | none => false

/-- Insert a transaction into the merchant grouping map (JS `Map`
semantics: a fresh key is appended, an existing key keeps its position
and its list grows at the end). -/
def insGroup (m : List (String × List CatTx)) (k : String) (t : CatTx) :
    List (String × List CatTx) :=
  match m with
  | [] => [(k, [t])]
  | (k', l) :: rest =>
    if k' = k then (k', l ++ [t]) :: rest else (k', l) :: insGroup rest k t

/-- The `merchantFrequency` map of `findRecurringPayments`: debit
transactions with a truthy merchant, grouped by merchant. -/
def merchantFrequency (txs : List CatTx) : List (String × List CatTx) :=
  txs.foldl
    (fun m t =>
      if t.type = TxType.debit && truthyMerchant t then
        insGroup m (t.merchant.getD "") t
      else m)
    []

/-- `BankStatementService.calculateFrequency`: mean gap in days between
consecutive (sorted) dates; `weekly` ≤ 7 < `monthly` ≤ 31 < `quarterly`
≤ 93 < `irregular`. -/
def calculateFrequency (transactions : List CatTx) : String :=
  if transactions.length < 2 then "unknown"
  else
    let dates := List.insertionSort (fun a b => a ≤ b) (transactions.map CatTx.date)
    let intervals := (dates.zip dates.tail).map
      (fun p => ((p.2 - p.1 : ℤ) : ℚ) / (1000 * 60 * 60 * 24))
    let avgInterval := intervals.foldl (fun s i => s + i) (0 : ℚ) / (intervals.length : ℚ)
    if avgInterval ≤ 7 then "weekly"
    else if avgInterval ≤ 31 then "monthly"
    else if avgInterval ≤ 93 then "quarterly"
    else "irregular"

/-- One reported recurring payment. -/
structure Recurring where
  merchant : String
  amount : ℚ
  frequency : String
  lastDate : Int
deriving DecidableEq, Repr

/-- JS `Math.max(...)` over the dates of a transaction list (only used
on non-empty groups). -/
def maxDate (l : List CatTx) : Int :=
  match l.map CatTx.date with
  | [] => 0
  | d :: ds => ds.foldl max d

/-- `BankStatementService.findRecurringPayments`: merchants with at
least 3 grouped transactions, reported in map insertion order with
average amount, inferred frequency and most recent date; the first 5
entries are kept (`recurring.slice(0, 5)`). -/
def findRecurringPayments (txs : List CatTx) : List Recurring :=
  (((merchantFrequency txs).filter (fun p => 3 ≤ p.2.length)).map
    (fun p =>
      { merchant := p.1,
        amount := (p.2.foldl (fun s t => s + t.amount) (0 : ℚ)) / (p.2.length : ℚ),
        frequency := calculateFrequency p.2,
        lastDate := maxDate p.2 })).take 5

/-- One reported unusual transaction. -/
structure Unusual where
  date : Int
  description : String
  amount : ℚ
  reason : String
deriving DecidableEq, Repr

/-- JS `Math.round` (round half towards positive infinity). -/
def jsRound (q : ℚ) : ℤ := ⌊q + 1 / 2⌋

/-- `BankStatementService.findUnusualTransactions`: transactions (of
any type) whose amount exceeds 3 times the mean amount of the whole
list, annotated with the rounded multiple of the mean; the first 5 are
kept. -/
def findUnusualTransactions (txs : List CatTx) : List Unusual :=
  if txs.length = 0 then []
  else
    let amounts := txs.map CatTx.amount
    let avgAmount := amounts.foldl (fun s a => s + a) (0 : ℚ) / (amounts.length : ℚ)
    let threshold := avgAmount * 3
    ((txs.filter (fun t => threshold < t.amount)).map
      (fun t =>
        { date := t.date, description := t.description, amount := t.amount,
          reason := "Amount is " ++ toString (jsRound (t.amount / avgAmount)) ++
            "x higher than average" })).take 5

/-! ## `PDFParser.detectBankType` -/

/-- The `bankIndicators` registry, in source order. -/
def bankIndicators : List (String × List String) :=
  [ ("gtbank", ["Guaranty Trust Bank", "GTBank", "gtb"]),
    ("access", ["Access Bank", "Diamond Bank"]),
    ("firstbank", ["First Bank", "FirstBank"]),
    ("zenith", ["Zenith Bank"]),
    ("uba", ["United Bank for Africa", "UBA"]),
    ("fidelity", ["Fidelity Bank"]),
    ("wema", ["Wema Bank"]),
    ("union", ["Union Bank"]),
    ("opay", ["OPay", "Wallet Account", "OWealth Balance", "Blue Ridge Microfinance"]) ]

/-- `PDFParser.detectBankType`: first registry entry one of whose
indicator phrases occurs (case-insensitively) in the text, defaulting
to `"generic"`. -/
def PDFParser.detectBankType (text : String) : String :=
  let lowerText := jsToLower text
  match bankIndicators.find? (fun p => p.2.any (fun ind => hasSub lowerText (jsToLower ind))) with
  | some p => p.1
  | none => "generic"

/-! ## Amount parsing (`parseFloat` and the three `parseAmount`s) -/

/-- Longest leading run of ASCII digits. -/
def readDigits : List Char → List Char × List Char
  | [] => ([], [])
  | c :: rest =>
    if isDigitCh c then
      match readDigits rest with
      | (d, r) => (c :: d, r)
    else ([], c :: rest)

/-- Value of a digit run. -/
def digitsToNat (l : List Char) : Nat :=
  l.foldl (fun a c => a * 10 + (c.toNat - 48)) 0

/-- Sign handling of JS `parseFloat`: the sign factor and the
remaining characters. -/
def jsSplitSign (cs : List Char) : ℚ × List Char :=
  match cs with
  | '-' :: r => (-1, r)
  | '+' :: r => (1, r)
  | _ => (1, cs)

/-- Fractional part of JS `parseFloat`: digits after a leading dot. -/
def jsFrac : List Char → List Char × List Char
  | '.' :: r => readDigits r
  | l => ([], l)

/-- Exponent part of JS `parseFloat` (consumed only when digits
follow the `e`). -/
def jsExpo : List Char → ℤ
  | 'e' :: '-' :: r2 => (match readDigits r2 with
    | ([], _) => 0
    | (ed, _) => -(digitsToNat ed : ℤ))
  | 'E' :: '-' :: r2 => (match readDigits r2 with
    | ([], _) => 0
    | (ed, _) => -(digitsToNat ed : ℤ))
  | 'e' :: '+' :: r2 => (match readDigits r2 with
    | ([], _) => 0
    | (ed, _) => (digitsToNat ed : ℤ))
  | 'E' :: '+' :: r2 => (match readDigits r2 with
    | ([], _) => 0
    | (ed, _) => (digitsToNat ed : ℤ))
  | 'e' :: r2 => (match readDigits r2 with
    | ([], _) => 0
    | (ed, _) => (digitsToNat ed : ℤ))
  | 'E' :: r2 => (match readDigits r2 with
    | ([], _) => 0
    | (ed, _) => (digitsToNat ed : ℤ))
  | _ => 0

/-- Whether `pat` is a leading segment of `l` (used for the `Infinity`
literal of JS `parseFloat`). -/
def leadsWith : List Char → List Char → Bool
  | [], _ => true
  | _ :: _, [] => false
  | a :: as, b :: bs => a = b && leadsWith as bs

/-- The characters of JS `parseFloat`'s `Infinity` literal. -/
def infinityLit : List Char := ['I', 'n', 'f', 'i', 'n', 'i', 't', 'y']

/-- Whether the whitespace-stripped input starts with a minus sign. -/
def jsIsNegSign : List Char → Bool
  | '-' :: _ => true
  | _ => false

/-- A JS `parseFloat` result: a finite value (modelled exactly over
`ℚ`) or a signed infinity (from the `Infinity` literal); `NaN` is
modelled by `Option`. -/
inductive JsFloat where
  | fin (q : ℚ)
  | inf (neg : Bool)
deriving DecidableEq, Repr

/-- JS `x === 0` (`Infinity !== 0`). -/
def JsFloat.isZero : JsFloat → Bool
  | JsFloat.fin q => q = 0
  | JsFloat.inf _ => false

/-- JS `0 < x` (`0 < Infinity` holds). -/
def JsFloat.isPos : JsFloat → Bool
  | JsFloat.fin q => 0 < q
  | JsFloat.inf b => !b

/-- JS `x < 0` (`-Infinity < 0` holds). -/
def JsFloat.isNeg : JsFloat → Bool
  | JsFloat.fin q => q < 0
  | JsFloat.inf b => b

/-- JS `Math.abs` (`Math.abs(-Infinity)` is `Infinity`). -/
def JsFloat.abs : JsFloat → JsFloat
  | JsFloat.fin q => JsFloat.fin |q|
  | JsFloat.inf _ => JsFloat.inf false

/-- Whether the value is one of the two infinities. -/
def JsFloat.isInf : JsFloat → Bool
  | JsFloat.fin _ => false
  | JsFloat.inf _ => true

/-- The `ℚ` image of a parsed number at the record boundary.  The file
models JS numbers as exact rationals, so the two infinities have no
image and are mapped to 0 here; every theorem that needs a stored
amount to be positive carries the matching `isInf = false`
qualification. -/
def JsFloat.toRat : JsFloat → ℚ
  | JsFloat.fin q => q
  | JsFloat.inf _ => 0

/-- JS `parseFloat`: optional whitespace and sign, then either the
`Infinity` literal or decimal digits with an optional fraction and
exponent; the longest valid prefix is parsed and `none` models
`NaN`. -/
def jsParseFloat (s : String) : Option JsFloat :=
  let sc := jsSplitSign (s.data.dropWhile isWsCh)
  if leadsWith infinityLit sc.2 then
    some (JsFloat.inf (jsIsNegSign (s.data.dropWhile isWsCh)))
  else
    let ipr := readDigits sc.2
    let fpr := jsFrac ipr.2
    if ipr.1.isEmpty && fpr.1.isEmpty then none
    else
      some (JsFloat.fin (sc.1 *
        (((digitsToNat ipr.1 : ℚ) + (digitsToNat fpr.1 : ℚ) / (10 : ℚ) ^ fpr.1.length) *
          (10 : ℚ) ^ jsExpo fpr.2)))

/-- Currency symbols stripped by all three `parseAmount`s. -/
def currencyChars : List Char := ['₦', '$', '€', '£', '¥', ',']

/-- `cleaned.substring(0, lastDot).replace(/\./g, '') + '.' +
cleaned.substring(lastDot + 1)`: strip every dot but the last. -/
def stripDotsExceptLast (l : List Char) : List Char :=
  let rev := l.reverse
  let after := rev.takeWhile (fun c => c ≠ '.')
  match rev.dropWhile (fun c => c ≠ '.') with
  | '.' :: before => (before.reverse.filter (fun c => c ≠ '.')) ++ '.' :: after.reverse
  | _ => l

/-- `PDFParser.parseAmount`: strip `[₦$€£¥,\s()]`, keep only the last
of multiple dots, `parseFloat`, 0 on `NaN`, absolute value. -/
def PDFParser.parseAmount (amountStr : String) : JsFloat :=
  if amountStr = "" then JsFloat.fin 0
  else
    let cleaned := trimList (amountStr.data.filter
      (fun c => !(charIn c currencyChars || isWsCh c || c = '(' || c = ')')))
    let dotCount := cleaned.count '.'
    let normalizedAmount := if 1 < dotCount then stripDotsExceptLast cleaned else cleaned
    match jsParseFloat ⟨normalizedAmount⟩ with
    | none => JsFloat.fin 0
    | some f => f.abs

/-- A JS `string | number` value, as fed to `CSVParser.parseAmount`. -/
inductive JsVal where
  | str (s : String)
  | num (q : ℚ)
deriving DecidableEq, Repr

/-- `CSVParser.parseAmount`: numbers are returned as they are; strings
are stripped of `[₦$€£¥,\s]` and `[()]`, and the signed `parseFloat`
value (0 on `NaN`, empty or `"-"` input) is returned. -/
def CSVParser.parseAmount : JsVal → JsFloat
  | JsVal.num q => JsFloat.fin q
  | JsVal.str s =>
    let cleanedAmount := trimList ((s.data.filter
      (fun c => !(charIn c currencyChars || isWsCh c))).filter
      (fun c => !(c = '(' || c = ')')))
    if cleanedAmount = [] || cleanedAmount = ['-'] then JsFloat.fin 0
    else
      match jsParseFloat ⟨cleanedAmount⟩ with
      | none => JsFloat.fin 0
      | some f => f

/-- A spreadsheet cell as produced by `xlsx.utils.sheet_to_json` with
`header: 1` (string, number, or absent). -/
inductive Cell where
  | str (s : String)
  | num (q : ℚ)
  | empty
deriving DecidableEq, Repr

/-- `ExcelParser.parseAmount`: numbers as they are; absent values and
strings go through `String(amountValue || '')`, stripping of
`[₦$€£¥,\s()]`, and signed `parseFloat` (0 on `NaN`, empty or `"-"`). -/
def ExcelParser.parseAmount (amountValue : Cell) : JsFloat :=
  match amountValue with
  | Cell.num q => JsFloat.fin q
  | amountValue =>
    let s := match amountValue with
      | Cell.str s => s
      | _ => ""
    let cleanedAmount := trimList (s.data.filter
      (fun c => !(charIn c currencyChars || isWsCh c || c = '(' || c = ')')))
    if cleanedAmount = [] || cleanedAmount = ['-'] then JsFloat.fin 0
    else
      match jsParseFloat ⟨cleanedAmount⟩ with
      | none => JsFloat.fin 0
      | some f => f

example : PDFParser.detectBankType "...Zenith Bank Plc..." = "zenith" := rfl
example : PDFParser.detectBankType "no bank here" = "generic" := rfl

/-! ## External libraries

The npm libraries used by the extractors are modelled as an explicit
record of functions, quantified over by every theorem: `date-fns`
(`parseISO`, `parse`, `isValid` folded into `Option`), the JS `Date`
constructor, `xlsx` (`read`, `SSF.parse_date_code`), `pdf-parse`, and
`csv-parser`.  `pdfDialect` stands for the family of per-dialect PDF
line parsers (`parseGTBankPDF`, …, `parseGenericPDF`); no claim
concerns their internals.  A `none` result models a rejected promise /
thrown error / invalid date. -/
structure Libs where
  numToStr : ℚ → String
  parseISO : String → Option Int
  parseFmt : String → String → Option Int
  jsDate : String → Option Int
  ssfDate : ℚ → Option Int
  pdfParseLib : List Nat → Option String
  pdfDialect : String → String → List Tx
  xlsxRead : List Nat → Option (List (List Cell))
  csvRows : List Nat → Option (List (List (String × String)))

/-- Error taxonomy of the extraction layer, by thrown message:
`Unsupported file type: ...`, `Failed to parse PDF file...`,
`Failed to parse Excel file...`, or a `csv-parser` stream error. -/
inductive ParseErr where
  | unsupported (fileType : String)
  | failedPDF
  | failedExcel
  | csvStream
deriving DecidableEq, Repr

/-- Errors of the statement-processing service around extraction. -/
inductive ProcErr where
  | parse (e : ParseErr)
  | noTransactionsFound
deriving DecidableEq, Repr

/-- The date format list shared (textually) by `ExcelParser.parseDate`,
`CSVParser.parseDate` and `PDFParser.parseDate`. -/
def dateFormats : List String :=
  ["yyyy-MM-dd", "dd/MM/yyyy", "MM/dd/yyyy", "dd-MM-yyyy", "MM-dd-yyyy",
   "yyyy/MM/dd", "dd MMM yyyy", "MMM dd, yyyy"]

/-- The shared string-date cascade: `parseISO`, then the fixed format
list, then the native `Date` constructor. -/
def parseDateStr (L : Libs) (dateStr : String) : Option Int :=
  match L.parseISO dateStr with
  | some d => some d
  | none =>
    match dateFormats.findSome? (fun fmt => L.parseFmt dateStr fmt) with
    | some d => some d
    | none => L.jsDate dateStr

/-- JS `String(cell || '')`. -/
def cellToString (L : Libs) : Cell → String
  | Cell.str s => s
  | Cell.num q => if q = 0 then "" else L.numToStr q
  | Cell.empty => ""

/-- JS truthiness of an optional cell. -/
def cellTruthy : Option Cell → Bool
  | some (Cell.str s) => s ≠ ""
  | some (Cell.num q) => q ≠ 0
  | some Cell.empty => false
  | none => false

/-- JS object field update (`rowData[h] = v`): overwrite or append. -/
def recSet : List (String × Cell) → String → Cell → List (String × Cell)
  | [], k, v => [(k, v)]
  | (k', v') :: rest, k, v =>
    if k' = k then (k', v) :: rest else (k', v') :: recSet rest k v

/-- JS object field access. -/
def recGet : List (String × Cell) → String → Option Cell
  | [], _ => none
  | (k', v) :: rest, k => if k' = k then some v else recGet rest k

/-! ## `ExcelParser` -/

/-- The `headerIndicators` vocabulary of
`ExcelParser.looksLikeHeaderRow`. -/
def headerIndicators : List String :=
  ["date", "transaction date", "trans date", "value date",
   "description", "narration", "memo", "details",
   "amount", "debit", "credit", "balance",
   "type", "reference", "ref"]

/-- `ExcelParser.looksLikeHeaderRow`: at least 3 cells, and at least
`Math.ceil(0.6 * cells)` of them contain a known field token.  (The
`0.6` factor is modelled exactly over `ℚ`.) -/
def ExcelParser.looksLikeHeaderRow (L : Libs) (row : List Cell) : Bool :=
  if row.length < 3 then false
  else
    let cellText := row.map (fun cell => jsTrim (jsToLower (cellToString L cell)))
    let hits := cellText.filter
      (fun cell => headerIndicators.any (fun ind => hasSub cell ind))
    Nat.ceil ((cellText.length : ℚ) * 6 / 10) ≤ hits.length

/-- `headers.find(h => h.toLowerCase().includes(f.toLowerCase()))`. -/
def matchHeaderInc (headers : List String) (f : String) : Option String :=
  headers.find? (fun h => hasSub (jsToLower h) (jsToLower f))

/-- `headers.find(h => h.toLowerCase().includes(f.toLowerCase()) ||
h.toLowerCase() === f.toLowerCase())`. -/
def matchHeaderIncEq (headers : List String) (f : String) : Option String :=
  headers.find? (fun h =>
    hasSub (jsToLower h) (jsToLower f) || jsToLower h = jsToLower f)

/-- `ExcelParser.parseDate`: numeric cells go through the spreadsheet
serial conversion first, then everything falls back to the shared
string cascade; falsy cells are `null`. -/
def ExcelParser.parseDate (L : Libs) : Cell → Option Int
  | Cell.empty => none
  | Cell.num q =>
    if q = 0 then none
    else
      match L.ssfDate q with
      | some d => some d
      | none => parseDateStr L (L.numToStr q)
  | Cell.str s => if s = "" then none else parseDateStr L s

/-- The `dateFields` synonym list of `ExcelParser.extractDate`. -/
def excelDateFields : List String :=
  ["Transaction Date", "Date", "TRANS DATE", "Transaction_Date",
   "date", "transaction_date", "Value Date", "VALUE_DATE",
   "trans date", "value date"]

/-- `ExcelParser.extractDate`: per synonym, exact field access first,
then the first case-insensitively matching header. -/
def ExcelParser.extractDate (L : Libs) (rowData : List (String × Cell))
    (headers : List String) : Option Int :=
  go excelDateFields
where
  go : List String → Option Int
  | [] => none
  | f :: fs =>
    match (if cellTruthy (recGet rowData f)
           then ExcelParser.parseDate L ((recGet rowData f).getD Cell.empty)
           else none) with
    | some d => some d
    | none =>
      match matchHeaderInc headers f with
      | some mh =>
        match (if cellTruthy (recGet rowData mh)
               then ExcelParser.parseDate L ((recGet rowData mh).getD Cell.empty)
               else none) with
        | some d => some d
        | none => go fs
      | none => go fs

/-- The `descFields` synonym list of `ExcelParser.extractDescription`. -/
def excelDescFields : List String :=
  ["Narration", "Description", "DESCRIPTION", "Memo",
   "narration", "description", "memo", "Details", "details",
   "transaction description", "trans description"]

/-- `ExcelParser.extractDescription`, defaulting to
`"Unknown Transaction"`. -/
def ExcelParser.extractDescription (L : Libs) (rowData : List (String × Cell))
    (headers : List String) : String :=
  go excelDescFields
where
  go : List String → String
  | [] => "Unknown Transaction"
  | f :: fs =>
    if cellTruthy (recGet rowData f) then
      jsTrim (cellToString L ((recGet rowData f).getD Cell.empty))
    else
      match matchHeaderInc headers f with
      | some mh =>
        if cellTruthy (recGet rowData mh) then
          jsTrim (cellToString L ((recGet rowData mh).getD Cell.empty))
        else go fs
      | none => go fs

/-- First synonym whose matching header holds a value parsing to a
positive amount (the debit/credit column scan of
`ExcelParser.extractAmount`). -/
def ExcelParser.scanPositive (rowData : List (String × Cell))
    (headers : List String) : List String → JsFloat
  | [] => JsFloat.fin 0
  | f :: fs =>
    match matchHeaderIncEq headers f with
    | some mh =>
      if cellTruthy (recGet rowData mh) then
        let a := ExcelParser.parseAmount ((recGet rowData mh).getD Cell.empty)
        if a.isPos then a else ExcelParser.scanPositive rowData headers fs
      else ExcelParser.scanPositive rowData headers fs
    | none => ExcelParser.scanPositive rowData headers fs

/-- The type-column scan of `ExcelParser.extractAmount`. -/
def ExcelParser.scanType (L : Libs) (rowData : List (String × Cell))
    (headers : List String) : List String → Option TxType
  | [] => none
  | f :: fs =>
    match matchHeaderInc headers f with
    | some th =>
      if cellTruthy (recGet rowData th) then
        let tv := jsToLower (cellToString L ((recGet rowData th).getD Cell.empty))
        if hasSub tv "debit" || hasSub tv "dr" || hasSub tv "withdrawal" then
          some TxType.debit
        else if hasSub tv "credit" || hasSub tv "cr" || hasSub tv "deposit" then
          some TxType.credit
        else ExcelParser.scanType L rowData headers fs
      else ExcelParser.scanType L rowData headers fs
    | none => ExcelParser.scanType L rowData headers fs

/-- The single-amount-column scan of `ExcelParser.extractAmount`. -/
def ExcelParser.scanAmount (L : Libs) (rowData : List (String × Cell))
    (headers : List String) : List String → JsFloat × TxType
  | [] => (JsFloat.fin 0, TxType.debit)
  | f :: fs =>
    match matchHeaderIncEq headers f with
    | some mh =>
      if cellTruthy (recGet rowData mh) then
        let originalAmount := ExcelParser.parseAmount ((recGet rowData mh).getD Cell.empty)
        let amount := originalAmount.abs
        match ExcelParser.scanType L rowData headers
            ["Type", "TYPE", "type", "Transaction Type", "trans type"] with
        | some ty => (amount, ty)
        | none => (amount, if originalAmount.isNeg then TxType.debit else TxType.credit)
      else ExcelParser.scanAmount L rowData headers fs
    | none => ExcelParser.scanAmount L rowData headers fs

/-- `ExcelParser.extractAmount`: separate debit/credit columns first;
if exactly one is positive it decides, otherwise a single amount column
(with optional type column, else the sign) decides; default
`(0, debit)`. -/
def ExcelParser.extractAmount (L : Libs) (rowData : List (String × Cell))
    (headers : List String) : JsFloat × TxType :=
  let debitAmount := ExcelParser.scanPositive rowData headers
    ["Debit", "DEBIT", "debit", "DR", "Withdrawal", "debit amount"]
  let creditAmount := ExcelParser.scanPositive rowData headers
    ["Credit", "CREDIT", "credit", "CR", "Deposit", "credit amount"]
  if debitAmount.isPos && creditAmount.isZero then (debitAmount, TxType.debit)
  else if creditAmount.isPos && debitAmount.isZero then (creditAmount, TxType.credit)
  else ExcelParser.scanAmount L rowData headers
    ["Amount", "AMOUNT", "amount", "Value", "transaction amount"]

/-- `ExcelParser.extractBalance`: the first truthy matching balance
column, parsed (`parseAmount` never yields `NaN`, so the `isNaN` guard
of the source always passes). -/
def ExcelParser.extractBalance (rowData : List (String × Cell))
    (headers : List String) : Option JsFloat :=
  go ["Balance", "BALANCE", "balance", "Running Balance", "Account Balance"]
where
  go : List String → Option JsFloat
  | [] => none
  | f :: fs =>
    match matchHeaderIncEq headers f with
    | some mh =>
      if cellTruthy (recGet rowData mh) then
        some (ExcelParser.parseAmount ((recGet rowData mh).getD Cell.empty))
      else go fs
    | none => go fs

/-- `ExcelParser.extractReference`. -/
def ExcelParser.extractReference (L : Libs) (rowData : List (String × Cell))
    (headers : List String) : Option String :=
  go ["Reference", "REFERENCE", "reference", "Ref", "ref", "Transaction ID", "trans id"]
where
  go : List String → Option String
  | [] => none
  | f :: fs =>
    match matchHeaderIncEq headers f with
    | some mh =>
      if cellTruthy (recGet rowData mh) then
        some (jsTrim (cellToString L ((recGet rowData mh).getD Cell.empty)))
      else go fs
    | none => go fs

/-- JS `x || undefined` on an optional parsed number: `0` is falsy,
the infinities are truthy; the stored value is the `ℚ` image. -/
def jsOptJF (x : Option JsFloat) : Option ℚ :=
  match x with
  | some f => if f.isZero then none else some f.toRat
  | none => none

/-- JS `x || undefined` on an optional string. -/
def jsOptStr (x : Option String) : Option String :=
  match x with
  | some s => if s = "" then none else some s
  | none => none

/-- The header-to-cell record (`rowData`) built at the top of
`parseExcelRow`. -/
def ExcelParser.rowRecord (headers : List String) (row : List Cell) :
    List (String × Cell) :=
  (headers.zip row).foldl (fun m p => recSet m p.1 p.2) []

/-- `ExcelParser.parseExcelRow`: map the row onto the headers, extract
the five fields, and drop the row (`null`) unless it has a date, a
non-empty description and a non-zero amount. -/
def ExcelParser.parseExcelRow (L : Libs) (headers : List String)
    (row : List Cell) : Option Tx :=
  let rowData := ExcelParser.rowRecord headers row
  let date := ExcelParser.extractDate L rowData headers
  let description := ExcelParser.extractDescription L rowData headers
  let at' := ExcelParser.extractAmount L rowData headers
  let balance := ExcelParser.extractBalance rowData headers
  let reference := ExcelParser.extractReference L rowData headers
  match date with
  | none => none
  | some d =>
    if description = "" || (at'.1).isZero then none
    else
      some { date := d, description := jsTrim description,
             amount := ((at'.1).abs).toRat,
             type := at'.2, balance := jsOptJF balance,
             reference := jsOptStr reference }

/-- The header search of `ExcelParser.extractTransactionsFromData`:
first row among the first 10 that looks like a header row. -/
def ExcelParser.findHeaderIdx (L : Libs) (data : List (List Cell)) : Option Nat :=
  (List.range (min 10 data.length)).find?
    (fun i => ExcelParser.looksLikeHeaderRow L (data.getD i []))

/-- `ExcelParser.extractTransactionsFromData`: fail (`Could not find
header row`) when no header row is found; otherwise parse every
subsequent non-empty row, dropping rows that fail (`continue` in the
`catch`, `null` results skipped). -/
def ExcelParser.extractTransactionsFromData (L : Libs)
    (data : List (List Cell)) : Except Unit (List Tx) :=
  match ExcelParser.findHeaderIdx L data with
  | none => Except.error ()
  | some i =>
    let headers := (data.getD i []).map (fun cell => jsTrim (cellToString L cell))
    Except.ok ((data.drop (i + 1)).filterMap
      (fun row => if row.isEmpty then none else ExcelParser.parseExcelRow L headers row))

/-- `ExcelParser.parse`: a failing `xlsx.read`, an empty grid (`No data
found in Excel file`) and a missing header row are all caught and
re-thrown as `Failed to parse Excel file...`. -/
def ExcelParser.parse (L : Libs) (fileBuffer : List Nat) : Except ParseErr (List Tx) :=
  match L.xlsxRead fileBuffer with
  | none => Except.error ParseErr.failedExcel
  | some data =>
    if data.length = 0 then Except.error ParseErr.failedExcel
    else
      match ExcelParser.extractTransactionsFromData L data with
      | Except.error _ => Except.error ParseErr.failedExcel
      | Except.ok l => Except.ok l

/-! ## `CSVParser` row extraction -/

/-- Field access on a `csv-parser` row object. -/
def srowGet : List (String × String) → String → Option String
  | [], _ => none
  | (k', v) :: rest, k => if k' = k then some v else srowGet rest k

/-- JS truthiness of an optional string value. -/
def strTruthy : Option String → Bool
  | some s => s ≠ ""
  | none => false

/-- `CSVParser.parseDate`: the shared string cascade. -/
def CSVParser.parseDate (L : Libs) (dateStr : String) : Option Int :=
  parseDateStr L dateStr

/-- `CSVParser.extractDate`: first truthy date synonym whose value
parses to a valid date. -/
def CSVParser.extractDate (L : Libs) (row : List (String × String)) : Option Int :=
  go ["Transaction Date", "Date", "TRANS DATE", "Transaction_Date",
      "date", "transaction_date", "Value Date", "VALUE_DATE"]
where
  go : List String → Option Int
  | [] => none
  | f :: fs =>
    match (if strTruthy (srowGet row f)
           then CSVParser.parseDate L ((srowGet row f).getD "")
           else none) with
    | some d => some d
    | none => go fs

/-- `CSVParser.extractDescription`, defaulting to
`"Unknown Transaction"`. -/
def CSVParser.extractDescription (row : List (String × String)) : String :=
  go ["Narration", "Description", "DESCRIPTION", "Memo",
      "narration", "description", "memo", "Details", "details"]
where
  go : List String → String
  | [] => "Unknown Transaction"
  | f :: fs =>
    if strTruthy (srowGet row f) then jsTrim ((srowGet row f).getD "")
    else go fs

/-- The debit/credit column scan of `CSVParser.extractAmount`. -/
def CSVParser.scanPositive (row : List (String × String)) : List String → JsFloat
  | [] => JsFloat.fin 0
  | f :: fs =>
    if strTruthy (srowGet row f) then
      let a := CSVParser.parseAmount (JsVal.str ((srowGet row f).getD ""))
      if a.isPos then a else CSVParser.scanPositive row fs
    else CSVParser.scanPositive row fs

/-- The type-column scan of `CSVParser.extractAmount`. -/
def CSVParser.scanType (row : List (String × String)) : List String → Option TxType
  | [] => none
  | f :: fs =>
    if strTruthy (srowGet row f) then
      let tv := jsToLower ((srowGet row f).getD "")
      if hasSub tv "debit" || hasSub tv "dr" || hasSub tv "withdrawal" then
        some TxType.debit
      else if hasSub tv "credit" || hasSub tv "cr" || hasSub tv "deposit" then
        some TxType.credit
      else CSVParser.scanType row fs
    else CSVParser.scanType row fs

/-- The single-amount-column scan of `CSVParser.extractAmount`. -/
def CSVParser.scanAmount (row : List (String × String)) : List String → JsFloat × TxType
  | [] => (JsFloat.fin 0, TxType.debit)
  | f :: fs =>
    if strTruthy (srowGet row f) then
      let originalAmount := CSVParser.parseAmount (JsVal.str ((srowGet row f).getD ""))
      let amount := originalAmount.abs
      match CSVParser.scanType row ["Type", "TYPE", "type", "Transaction Type"] with
      | some ty => (amount, ty)
      | none => (amount, if originalAmount.isNeg then TxType.debit else TxType.credit)
    else CSVParser.scanAmount row fs

/-- `CSVParser.extractAmount`. -/
def CSVParser.extractAmount (row : List (String × String)) : JsFloat × TxType :=
  let debitAmount := CSVParser.scanPositive row
    ["Debit", "DEBIT", "debit", "DR", "Withdrawal"]
  let creditAmount := CSVParser.scanPositive row
    ["Credit", "CREDIT", "credit", "CR", "Deposit"]
  if debitAmount.isPos && creditAmount.isZero then (debitAmount, TxType.debit)
  else if creditAmount.isPos && debitAmount.isZero then (creditAmount, TxType.credit)
  else CSVParser.scanAmount row ["Amount", "AMOUNT", "amount", "Value"]

/-- `CSVParser.extractBalance`. -/
def CSVParser.extractBalance (row : List (String × String)) : Option JsFloat :=
  go ["Balance", "BALANCE", "balance", "Running Balance"]
where
  go : List String → Option JsFloat
  | [] => none
  | f :: fs =>
    if strTruthy (srowGet row f) then
      some (CSVParser.parseAmount (JsVal.str ((srowGet row f).getD "")))
    else go fs

/-- `CSVParser.extractReference`. -/
def CSVParser.extractReference (row : List (String × String)) : Option String :=
  go ["Reference", "REFERENCE", "reference", "Ref", "ref", "Transaction ID"]
where
  go : List String → Option String
  | [] => none
  | f :: fs =>
    if strTruthy (srowGet row f) then some (jsTrim ((srowGet row f).getD ""))
    else go fs

/-- `CSVParser.parseCSVRow`: drop (`null`) unless a date, a non-empty
description and a non-zero amount were extracted. -/
def CSVParser.parseCSVRow (L : Libs) (row : List (String × String)) : Option Tx :=
  let date := CSVParser.extractDate L row
  let description := CSVParser.extractDescription row
  let at' := CSVParser.extractAmount row
  let balance := CSVParser.extractBalance row
  let reference := CSVParser.extractReference row
  match date with
  | none => none
  | some d =>
    if description = "" || (at'.1).isZero then none
    else
      some { date := d, description := jsTrim description,
             amount := ((at'.1).abs).toRat,
             type := at'.2, balance := jsOptJF balance,
             reference := jsOptStr reference }

/-- `CSVParser.parse`: every row goes through `parseCSVRow`; failing
rows are dropped (per-row `try`/`catch`, `null` skipped); a stream
error rejects the whole parse. -/
def CSVParser.parse (L : Libs) (fileBuffer : List Nat) : Except ParseErr (List Tx) :=
  match L.csvRows fileBuffer with
  | none => Except.error ParseErr.csvStream
  | some rows => Except.ok (rows.filterMap (CSVParser.parseCSVRow L))

/-! ## `parseFile` and the service wrapper -/

/-- `PDFParser.parse`: a failing `pdf-parse` is re-thrown as `Failed to
parse PDF file...`; otherwise the dialect detected on the extracted
text picks the per-dialect line parser. -/
def PDFParser.parse (L : Libs) (fileBuffer : List Nat) : Except ParseErr (List Tx) :=
  match L.pdfParseLib fileBuffer with
  | none => Except.error ParseErr.failedPDF
  | some text => Except.ok (L.pdfDialect (PDFParser.detectBankType text) text)

/-- `BankStatementService.parseFile`: dispatch on the lowercased file
type; unknown types throw `Unsupported file type`. -/
def parseFile (L : Libs) (fileBuffer : List Nat) (fileType : String) :
    Except ParseErr (List Tx) :=
  if jsToLower fileType = "pdf" then PDFParser.parse L fileBuffer
  else if jsToLower fileType = "csv" then CSVParser.parse L fileBuffer
  else if jsToLower fileType = "xlsx" || jsToLower fileType = "xls" then
    ExcelParser.parse L fileBuffer
  else Except.error (ParseErr.unsupported fileType)

/-- The extraction phase of `BankStatementService.processStatement`:
`parseFile`, then `No transactions found in the statement` when the
extractor returned zero records. -/
def processStatementExtract (L : Libs) (fileBuffer : List Nat) (fileType : String) :
    Except ProcErr (List Tx) :=
  match parseFile L fileBuffer fileType with
  | Except.error e => Except.error (ProcErr.parse e)
  | Except.ok l =>
    if l.length = 0 then Except.error ProcErr.noTransactionsFound
    else Except.ok l

/-! ## Character-level lemmas -/

theorem charOfNat_toNat (n : Nat) (h : n.isValidChar) : (Char.ofNat n).toNat = n := by
  simp only [Char.ofNat, Char.ofNatAux, Char.toNat, UInt32.toNat]
  split
  · simp [BitVec.toNat_ofNatLt]
  · rename_i hc
    exact absurd h hc

theorem lowChar_not_upper (c : Char) :
    ¬(65 ≤ (lowChar c).toNat ∧ (lowChar c).toNat ≤ 90) := by
  simp only [lowChar, Char.toLower]
  by_cases h : c.toNat ≥ 65 ∧ c.toNat ≤ 90
  · rw [if_pos h]
    have hv : Nat.isValidChar (c.toNat + 32) := by
      left
      omega
    have h2 := charOfNat_toNat (c.toNat + 32) hv
    omega
  · rw [if_neg h]
    omega

theorem lowChar_fix (c : Char) (h : ¬(65 ≤ c.toNat ∧ c.toNat ≤ 90)) : lowChar c = c := by
  simp only [lowChar, Char.toLower]
  rw [if_neg (by omega)]

theorem lowChar_idem (c : Char) : lowChar (lowChar c) = lowChar c :=
  lowChar_fix _ (lowChar_not_upper c)

/-! ## Whitespace-structure lemmas for `squeezeWs`, `trimRight`,
`dropWhile` -/

/-- No two adjacent whitespace characters. -/
def NoWW : List Char → Prop
  | [] => True
  | [_] => True
  | c :: c' :: rest => ¬(isWsCh c = true ∧ isWsCh c' = true) ∧ NoWW (c' :: rest)

/-- Every whitespace character is a plain space. -/
def AllSp (l : List Char) : Prop := ∀ c ∈ l, isWsCh c = true → c = ' '

theorem noWW_tail {c : Char} {r : List Char} (h : NoWW (c :: r)) : NoWW r := by
  cases r with
  | nil => trivial
  | cons c' rest => exact h.2

theorem noWW_cons_of_head (c : Char) (t : List Char) (hc : isWsCh c = false)
    (ht : NoWW t) : NoWW (c :: t) := by
  cases t with
  | nil => trivial
  | cons x xs => exact ⟨by simp [hc], ht⟩

theorem squeezeWs_cons_neg (c : Char) (r : List Char) (h : isWsCh c = false) :
    squeezeWs (c :: r) = c :: squeezeWs r := by
  cases r with
  | nil => simp [squeezeWs, h]
  | cons c' rest => simp [squeezeWs, h]

theorem squeezeWs_single_ws (c : Char) (h : isWsCh c = true) :
    squeezeWs [c] = [' '] := by
  simp [squeezeWs, h]

theorem squeezeWs_ws_ws (c c' : Char) (r : List Char) (h1 : isWsCh c = true)
    (h2 : isWsCh c' = true) : squeezeWs (c :: c' :: r) = squeezeWs (c' :: r) := by
  simp [squeezeWs, h1, h2]

theorem squeezeWs_ws_neg (c c' : Char) (r : List Char) (h1 : isWsCh c = true)
    (h2 : isWsCh c' = false) : squeezeWs (c :: c' :: r) = ' ' :: squeezeWs (c' :: r) := by
  simp [squeezeWs, h1, h2]

theorem mem_squeezeWs {c : Char} : ∀ {l : List Char}, c ∈ squeezeWs l → c ∈ l ∨ c = ' '
  | [], h => by simp [squeezeWs] at h
  | [a], h => by
    by_cases ha : isWsCh a = true
    · rw [squeezeWs_single_ws a ha] at h
      simp at h
      exact Or.inr h
    · rw [squeezeWs_cons_neg a [] (by simpa using ha)] at h
      simp [squeezeWs] at h
      simp [h]
  | a :: b :: r, h => by
    by_cases ha : isWsCh a = true
    · by_cases hb : isWsCh b = true
      · rw [squeezeWs_ws_ws a b r ha hb] at h
        rcases mem_squeezeWs h with h2 | h2
        · exact Or.inl (List.mem_cons_of_mem a h2)
        · exact Or.inr h2
      · rw [squeezeWs_ws_neg a b r ha (by simpa using hb)] at h
        rcases List.mem_cons.mp h with h2 | h2
        · exact Or.inr h2
        · rcases mem_squeezeWs h2 with h3 | h3
          · exact Or.inl (List.mem_cons_of_mem a h3)
          · exact Or.inr h3
    · rw [squeezeWs_cons_neg a (b :: r) (by simpa using ha)] at h
      rcases List.mem_cons.mp h with h2 | h2
      · exact Or.inl (h2 ▸ List.mem_cons_self a _)
      · rcases mem_squeezeWs h2 with h3 | h3
        · exact Or.inl (List.mem_cons_of_mem a h3)
        · exact Or.inr h3

theorem noWW_cons_cons (c c' : Char) (r : List Char) :
    NoWW (c :: c' :: r) ↔ ¬(isWsCh c = true ∧ isWsCh c' = true) ∧ NoWW (c' :: r) :=
  Iff.rfl

theorem squeezeWs_allSp : ∀ (l : List Char), AllSp (squeezeWs l)
  | [] => by
    intro c hc
    simp [squeezeWs] at hc
  | [a] => by
    intro c hc hws
    by_cases ha : isWsCh a = true
    · rw [squeezeWs_single_ws a ha] at hc
      simpa using hc
    · rw [squeezeWs_cons_neg a [] (by simpa using ha)] at hc
      simp [squeezeWs] at hc
      rw [hc] at hws
      exact absurd hws (by simpa using ha)
  | a :: b :: r => by
    intro c hc hws
    by_cases ha : isWsCh a = true
    · by_cases hb : isWsCh b = true
      · rw [squeezeWs_ws_ws a b r ha hb] at hc
        exact squeezeWs_allSp (b :: r) c hc hws
      · rw [squeezeWs_ws_neg a b r ha (by simpa using hb)] at hc
        rcases List.mem_cons.mp hc with h2 | h2
        · exact h2
        · exact squeezeWs_allSp (b :: r) c h2 hws
    · rw [squeezeWs_cons_neg a (b :: r) (by simpa using ha)] at hc
      rcases List.mem_cons.mp hc with h2 | h2
      · rw [h2] at hws
        exact absurd hws (by simpa using ha)
      · exact squeezeWs_allSp (b :: r) c h2 hws

theorem squeezeWs_noWW : ∀ (l : List Char), NoWW (squeezeWs l)
  | [] => by
    simp [squeezeWs]
    trivial
  | [a] => by
    by_cases ha : isWsCh a = true
    · rw [squeezeWs_single_ws a ha]
      trivial
    · rw [squeezeWs_cons_neg a [] (by simpa using ha)]
      simp [squeezeWs]
      trivial
  | a :: b :: r => by
    by_cases ha : isWsCh a = true
    · by_cases hb : isWsCh b = true
      · rw [squeezeWs_ws_ws a b r ha hb]
        exact squeezeWs_noWW (b :: r)
      · have hb' : isWsCh b = false := by simpa using hb
        rw [squeezeWs_ws_neg a b r ha hb', squeezeWs_cons_neg b r hb']
        rw [noWW_cons_cons]
        refine ⟨by simp [hb'], ?_⟩
        rw [← squeezeWs_cons_neg b r hb']
        exact squeezeWs_noWW (b :: r)
    · rw [squeezeWs_cons_neg a (b :: r) (by simpa using ha)]
      exact noWW_cons_of_head a _ (by simpa using ha) (squeezeWs_noWW (b :: r))

theorem squeezeWs_eq_self : ∀ (l : List Char), AllSp l → NoWW l → squeezeWs l = l
  | [], _, _ => rfl
  | [a], hsp, _ => by
    by_cases ha : isWsCh a = true
    · rw [squeezeWs_single_ws a ha, hsp a (by simp) ha]
    · exact squeezeWs_cons_neg a [] (by simpa using ha)
  | a :: b :: r, hsp, hww => by
    by_cases ha : isWsCh a = true
    · have hb : isWsCh b = false := by
        rcases (noWW_cons_cons a b r).mp hww with ⟨h1, _⟩
        by_contra hb
        exact h1 ⟨ha, by simpa using hb⟩
      rw [squeezeWs_ws_neg a b r ha hb]
      rw [squeezeWs_eq_self (b :: r) (fun c hc => hsp c (List.mem_cons_of_mem a hc))
        ((noWW_cons_cons a b r).mp hww).2]
      rw [hsp a (by simp) ha]
    · rw [squeezeWs_cons_neg a (b :: r) (by simpa using ha)]
      rw [squeezeWs_eq_self (b :: r) (fun c hc => hsp c (List.mem_cons_of_mem a hc))
        ((noWW_cons_cons a b r).mp hww).2]

theorem mem_trimRight {c : Char} : ∀ {l : List Char}, c ∈ trimRight l → c ∈ l
  | [], h => by simp [trimRight] at h
  | a :: r, h => by
    rw [trimRight] at h
    rcases htr : trimRight r with _ | ⟨t, ts⟩
    · rw [htr] at h
      by_cases ha : isWsCh a = true
      · simp [ha] at h
      · simp [ha] at h
        simp [h]
    · rw [htr] at h
      rcases List.mem_cons.mp h with h2 | h2
      · simp [h2]
      · exact List.mem_cons_of_mem a (mem_trimRight (htr ▸ h2))

theorem trimRight_head {t : Char} {ts l : List Char} (h : trimRight l = t :: ts) :
    ∃ rs, l = t :: rs := by
  cases l with
  | nil => simp [trimRight] at h
  | cons a r =>
    rw [trimRight] at h
    rcases htr : trimRight r with _ | ⟨x, xs⟩
    · rw [htr] at h
      by_cases ha : isWsCh a = true
      · simp [ha] at h
      · simp [ha] at h
        exact ⟨r, by rw [h.1]⟩
    · rw [htr] at h
      rw [List.cons.injEq] at h
      exact ⟨r, by rw [h.1]⟩

theorem trimRight_noWW : ∀ {l : List Char}, NoWW l → NoWW (trimRight l)
  | [], _ => trivial
  | a :: r, h => by
    rw [trimRight]
    rcases htr : trimRight r with _ | ⟨t, ts⟩
    · by_cases ha : isWsCh a = true
      · simp [ha]
        trivial
      · simp [ha]
        trivial
    · rcases trimRight_head htr with ⟨rs, hr⟩
      rw [noWW_cons_cons]
      constructor
      · subst hr
        exact ((noWW_cons_cons a t rs).mp h).1
      · rw [← htr]
        exact trimRight_noWW (noWW_tail h)

theorem trimRight_idem : ∀ (l : List Char), trimRight (trimRight l) = trimRight l
  | [] => rfl
  | a :: r => by
    rw [trimRight]
    rcases htr : trimRight r with _ | ⟨t, ts⟩
    · by_cases ha : isWsCh a = true
      · simp [ha, trimRight]
      · simp [ha, trimRight]
    · have ih : trimRight (trimRight r) = trimRight r := trimRight_idem r
      rw [htr] at ih
      rw [trimRight, ih]

theorem dropWhile_mem {p : Char → Bool} {c : Char} :
    ∀ {l : List Char}, c ∈ l.dropWhile p → c ∈ l
  | [], h => by simp at h
  | a :: r, h => by
    rw [List.dropWhile] at h
    by_cases ha : p a = true
    · rw [ha] at h
      simp only [cond_true] at h
      exact List.mem_cons_of_mem a (dropWhile_mem h)
    · rw [Bool.not_eq_true] at ha
      rw [ha] at h
      simpa using h

theorem dropWhile_noWW {p : Char → Bool} : ∀ {l : List Char}, NoWW l → NoWW (l.dropWhile p)
  | [], _ => trivial
  | a :: r, h => by
    rw [List.dropWhile]
    by_cases ha : p a = true
    · rw [ha]
      simp only [cond_true]
      exact dropWhile_noWW (noWW_tail h)
    · rw [Bool.not_eq_true] at ha
      rw [ha]
      simpa using h

theorem dropWhile_head {p : Char → Bool} {t : Char} {ts : List Char} :
    ∀ {l : List Char}, l.dropWhile p = t :: ts → p t = false
  | [], h => by simp at h
  | a :: r, h => by
    rw [List.dropWhile] at h
    by_cases ha : p a = true
    · rw [ha] at h
      simp only [cond_true] at h
      exact dropWhile_head h
    · rw [Bool.not_eq_true] at ha
      rw [ha] at h
      simp only [cond_false] at h
      rw [List.cons.injEq] at h
      rw [← h.1]
      exact ha

theorem dropWhile_eq_self_of_head {p : Char → Bool} {l : List Char}
    (h : ∀ t ts, l = t :: ts → p t = false) : l.dropWhile p = l := by
  cases l with
  | nil => rfl
  | cons a r =>
    rw [List.dropWhile, h a r rfl]

/-! ## The normalization pipeline at the character-list level -/

/-- The character-list pipeline underlying `normalizeDescription`. -/
def normPipe (l : List Char) : List Char :=
  trimList (squeezeWs (((l.map lowChar).filter (fun c => !isDigitCh c)).map
    (fun c => if isWordCh c || isWsCh c then c else ' ')))

theorem normalizeDescription_eq (s : String) :
    normalizeDescription s = ⟨normPipe s.data⟩ := rfl

theorem map_id_of_mem {α : Type} {f : α → α} :
    ∀ {l : List α}, (∀ c ∈ l, f c = c) → l.map f = l
  | [], _ => rfl
  | a :: r, h => by
    rw [List.map_cons, h a (by simp), map_id_of_mem (fun c hc => h c (List.mem_cons_of_mem a hc))]

theorem lowChar_space : lowChar ' ' = ' ' := by decide

theorem mem_replStage {c : Char} {l : List Char}
    (h : c ∈ ((l.map lowChar).filter (fun c => !isDigitCh c)).map
      (fun c => if isWordCh c || isWsCh c then c else ' ')) :
    lowChar c = c ∧ isDigitCh c = false ∧ (isWordCh c || isWsCh c) = true := by
  rcases List.mem_map.mp h with ⟨b, hb, hrepl⟩
  rcases List.mem_filter.mp hb with ⟨hbmem, hbdig⟩
  rcases List.mem_map.mp hbmem with ⟨a, _, hlow⟩
  by_cases hcond : (isWordCh b || isWsCh b) = true
  · rw [if_pos hcond] at hrepl
    subst hrepl
    refine ⟨?_, ?_, hcond⟩
    · rw [← hlow]
      exact lowChar_idem a
    · simpa using hbdig
  · rw [if_neg hcond] at hrepl
    subst hrepl
    exact ⟨by decide, by decide, by decide⟩

theorem mem_normPipe {c : Char} {l : List Char} (h : c ∈ normPipe l) :
    lowChar c = c ∧ isDigitCh c = false ∧ (isWordCh c || isWsCh c) = true := by
  rw [normPipe, trimList] at h
  have h2 := dropWhile_mem (mem_trimRight h)
  rcases mem_squeezeWs h2 with h3 | h3
  · exact mem_replStage h3
  · subst h3
    exact ⟨by decide, by decide, by decide⟩

theorem normPipe_allSp (l : List Char) : AllSp (normPipe l) := by
  intro c hc hws
  rw [normPipe, trimList] at hc
  exact squeezeWs_allSp _ c (dropWhile_mem (mem_trimRight hc)) hws

theorem normPipe_noWW (l : List Char) : NoWW (normPipe l) := by
  rw [normPipe, trimList]
  exact trimRight_noWW (dropWhile_noWW (squeezeWs_noWW _))

theorem trimList_normPipe (l : List Char) : trimList (normPipe l) = normPipe l := by
  have hdw : (normPipe l).dropWhile isWsCh = normPipe l := by
    apply dropWhile_eq_self_of_head
    intro t ts ht
    rw [normPipe, trimList] at ht
    rcases trimRight_head ht with ⟨rs, hrs⟩
    exact dropWhile_head hrs
  rw [trimList, hdw]
  conv_lhs =>
    rw [normPipe, trimList]
  rw [trimRight_idem]
  rw [normPipe, trimList]

theorem normPipe_idem (l : List Char) : normPipe (normPipe l) = normPipe l := by
  have h1 : (normPipe l).map lowChar = normPipe l :=
    map_id_of_mem (fun c hc => (mem_normPipe hc).1)
  have h2 : (normPipe l).filter (fun c => !isDigitCh c) = normPipe l :=
    List.filter_eq_self.mpr (fun c hc => by
      rw [(mem_normPipe hc).2.1]
      rfl)
  have h3 : (normPipe l).map (fun c => if isWordCh c || isWsCh c then c else ' ') = normPipe l :=
    map_id_of_mem (fun c hc => if_pos ((mem_normPipe hc).2.2))
  have h4 : squeezeWs (normPipe l) = normPipe l :=
    squeezeWs_eq_self _ (normPipe_allSp l) (normPipe_noWW l)
  conv_lhs =>
    rw [normPipe]
  rw [h1, h2, h3, h4, trimList_normPipe]

/-! ## Key stability under digit removal -/

theorem char_le_iff (a b : Char) : a ≤ b ↔ a.toNat ≤ b.toNat := by
  rw [Char.le_def, UInt32.le_def, BitVec.le_def]
  exact Iff.rfl

theorem isDigitCh_lowChar (c : Char) : isDigitCh (lowChar c) = isDigitCh c := by
  by_cases h : 65 ≤ c.toNat ∧ c.toNat ≤ 90
  · have h1 : (lowChar c).toNat = c.toNat + 32 := by
      simp only [lowChar, Char.toLower]
      rw [if_pos (by omega : c.toNat ≥ 65 ∧ c.toNat ≤ 90)]
      exact charOfNat_toNat _ (Or.inl (by omega))
    have h9 : ('9').toNat = 57 := rfl
    have hlhs : ¬(lowChar c ≤ '9') := by
      rw [char_le_iff, h9, h1]
      omega
    have hrhs : ¬('0' ≤ c ∧ c ≤ '9') := by
      rintro ⟨_, h2⟩
      rw [char_le_iff, h9] at h2
      omega
    simp only [isDigitCh]
    rw [decide_eq_false hlhs]
    rcases Decidable.em ('0' ≤ c) with h0 | h0
    · rw [decide_eq_false (fun hc => hrhs ⟨h0, hc⟩)]
      simp
    · rw [decide_eq_false h0]
      simp
  · rw [lowChar_fix c h]

theorem normalizeDescription_digit_filter (s1 s2 : String)
    (h : s1.data.filter (fun c => !isDigitCh c) = s2.data.filter (fun c => !isDigitCh c)) :
    normalizeDescription s1 = normalizeDescription s2 := by
  rw [normalizeDescription_eq, normalizeDescription_eq]
  have key : ∀ l : List Char,
      (l.map lowChar).filter (fun c => !isDigitCh c) =
        (l.filter (fun c => !isDigitCh c)).map lowChar := by
    intro l
    rw [List.filter_map]
    congr 1
    apply List.filter_congr
    intro c _
    simp only [Function.comp]
    rw [isDigitCh_lowChar]
  have : normPipe s1.data = normPipe s2.data := by
    rw [normPipe, normPipe, key, key, h]
  rw [this]

/-- Fan-out of a stored entry with truthy fields yields the same
category and merchant for every transaction sharing the key. -/
theorem fanOutTx_same_key (m : AMap) (t1 t2 : Tx) (e : AIEntry)
    (hk : normalizeDescription t1.description = normalizeDescription t2.description)
    (he : amapGet m (normalizeDescription t1.description) = some e)
    (hc : e.category ≠ "") (hm : e.merchant ≠ "") :
    (fanOutTx m t1).category = (fanOutTx m t2).category ∧
    (fanOutTx m t1).merchant = (fanOutTx m t2).merchant := by
  have he2 : amapGet m (normalizeDescription t2.description) = some e := by
    rw [← hk]
    exact he
  simp only [fanOutTx, he, he2, mkCatTx]
  simp only [if_neg hc, if_neg hm]
  exact ⟨trivial, trivial⟩

/-! ## Concrete fixtures -/

/-- An external classifier that always fails (times out / errors). -/
def failO : Oracle := fun _ _ => none

/-- The same behaviour for the smart strategy's single attempts. -/
def failS : SOracle := fun _ => none

/-- A run in which the wall-clock timeout never fires. -/
def noTimeout : Nat → Bool := fun _ => false

/-- A debit transaction with the given description. -/
def mkTx (d : String) : Tx :=
  { date := 0, description := d, amount := 1, type := TxType.debit }

/-- Ledger for the grouped-strategy counterexamples: four groups that
exhaust the circuit breaker, then two transactions sharing the
normalized key `"netflix pay"`. -/
def c6txs : List Tx :=
  [mkTx "alpha", mkTx "beta", mkTx "gamma", mkTx "delta",
   mkTx "NETFLIX PAY 111", mkTx "NETFLIX PAY 222"]

/-! ## Claims C10 and C6 -/

/-- C10: `normalizeDescription` is idempotent — for every string `s`,
`normalizeDescription (normalizeDescription s) = normalizeDescription s`
— so grouping keys are stable under re-normalization. -/
theorem C10_normalizeDescription_idempotent (s : String) :
    normalizeDescription (normalizeDescription s) = normalizeDescription s := by
  rw [normalizeDescription_eq s]
  rw [normalizeDescription_eq ⟨normPipe s.data⟩]
  show (⟨normPipe (normPipe s.data)⟩ : String) = ⟨normPipe s.data⟩
  rw [normPipe_idem]

/-- Counterexample to C6 as stated.  Two descriptions that differ only
in embedded digits do get the same key, but (a) descriptions differing
only in punctuation (`"ab"` vs `"a.b"`: same word characters) get
*different* keys, because punctuation is collapsed to a space rather
than removed, and (b) under the grouped strategy with a failing
classifier, the two `"NETFLIX PAY …"` transactions share a key yet
receive *different* merchants (`"NETFLIX PAY 111"` vs
`"NETFLIX PAY 222"`), because the circuit breaker stopped processing
before their group and the fan-out fallback is computed from each raw
description. -/
theorem C6_counterexample :
    ("ab").data.filter (fun c => isWordCh c || isWsCh c) =
      ("a.b").data.filter (fun c => isWordCh c || isWsCh c) ∧
    normalizeDescription "ab" ≠ normalizeDescription "a.b" ∧
    ("NETFLIX PAY 111").data.filter (fun c => !isDigitCh c) =
      ("NETFLIX PAY 222").data.filter (fun c => !isDigitCh c) ∧
    normalizeDescription "NETFLIX PAY 111" = normalizeDescription "NETFLIX PAY 222" ∧
    (smartCategorizeRun failS noTimeout c6txs).1.map (fun t => t.merchant) =
      [some "alpha", some "beta", some "gamma", some "delta",
       some "NETFLIX PAY 111", some "NETFLIX PAY 222"] ∧
    (some "NETFLIX PAY 111" : Option String) ≠ some "NETFLIX PAY 222" := by
  refine ⟨by decide, by decide, by decide, by decide, by decide, by decide⟩

/-- C6 (amended): two descriptions that differ only in embedded digits
normalize to the same key (punctuation is collapsed to spaces, so
punctuation-for-nothing differences may change the key); and under the
grouped strategy, two transactions sharing a normalized key receive
identical category and merchant whenever that key is present in the
categorization map with truthy fields — a key missed because the
breaker or timeout stopped processing falls back to per-transaction
heuristics on each raw description. -/
theorem C6_grouping :
    (∀ s1 s2 : String,
      s1.data.filter (fun c => !isDigitCh c) = s2.data.filter (fun c => !isDigitCh c) →
      normalizeDescription s1 = normalizeDescription s2) ∧
    (∀ (m : AMap) (t1 t2 : Tx) (e : AIEntry),
      normalizeDescription t1.description = normalizeDescription t2.description →
      amapGet m (normalizeDescription t1.description) = some e →
      e.category ≠ "" → e.merchant ≠ "" →
      (fanOutTx m t1).category = (fanOutTx m t2).category ∧
      (fanOutTx m t1).merchant = (fanOutTx m t2).merchant) :=
  ⟨normalizeDescription_digit_filter, fanOutTx_same_key⟩

/-- C6 witness: the amended statement applied to the concrete ledger
entries `"UBER 12"` / `"UBER 34"` and a map holding their key. -/
theorem C6_grouping_witness :
    normalizeDescription "UBER 12" = normalizeDescription "UBER 34" ∧
    (fanOutTx [("uber", ⟨"Transportation", "Uber", 1⟩)] (mkTx "UBER 12")).merchant =
      (fanOutTx [("uber", ⟨"Transportation", "Uber", 1⟩)] (mkTx "UBER 34")).merchant :=
  ⟨C6_grouping.1 "UBER 12" "UBER 34" (by decide),
   (C6_grouping.2 [("uber", ⟨"Transportation", "Uber", 1⟩)]
     (mkTx "UBER 12") (mkTx "UBER 34") ⟨"Transportation", "Uber", 1⟩
     (by decide) (by decide) (by decide) (by decide)).2⟩

/-! ## Orchestrator characterizations -/

theorem processTx_shape (o : Oracle) (maxAi gi : Nat) (t : Tx) :
    ∃ c m q, processTx o maxAi gi t = mkCatTx t c m q := by
  rw [processTx]
  by_cases h : gi < maxAi
  · rw [if_pos h]
    cases tryAttempts o gi with
    | none => exact ⟨_, _, _, rfl⟩
    | some r =>
      cases r with
      | mk cat mer => exact ⟨_, _, _, rfl⟩
  · rw [if_neg h]
    exact ⟨_, _, _, rfl⟩

theorem fanOutTx_shape (m : AMap) (t : Tx) :
    ∃ c me q, fanOutTx m t = mkCatTx t c me q := by
  rw [fanOutTx]
  cases amapGet m (normalizeDescription t.description) with
  | none => exact ⟨_, _, _, rfl⟩
  | some e => exact ⟨_, _, _, rfl⟩

theorem directLoop_eq (o : Oracle) (m : Nat) :
    ∀ (n : Nat) (l : List Tx) (gi : Nat), l.length ≤ n →
      directLoop o m gi l =
        ((l.enumFrom gi).map (fun p => processTx o m p.1 p.2),
         ((l.enumFrom gi).map (fun p => txAttempts o m p.1)).sum) := by
  intro n
  induction n with
  | zero =>
    intro l gi h
    rw [Nat.le_zero, List.length_eq_zero] at h
    subst h
    rfl
  | succ n ih =>
    intro l gi h
    rcases l with _ | ⟨t1, _ | ⟨t2, _ | ⟨t3, _ | ⟨t4, _ | ⟨t5, rest⟩⟩⟩⟩⟩
    · rfl
    · rfl
    · rfl
    · rfl
    · rfl
    · have hr : rest.length ≤ n := by
        simp only [List.length_cons] at h
        omega
      have hsplit : t1 :: t2 :: t3 :: t4 :: t5 :: rest =
          [t1, t2, t3, t4, t5] ++ rest := rfl
      have heq : directLoop o m gi (t1 :: t2 :: t3 :: t4 :: t5 :: rest) =
          ((batchProcess o m gi [t1, t2, t3, t4, t5]).1 ++
            (directLoop o m (gi + 5) rest).1,
           (batchProcess o m gi [t1, t2, t3, t4, t5]).2 +
            (directLoop o m (gi + 5) rest).2) := rfl
      rw [heq, ih rest (gi + 5) hr, hsplit, List.enumFrom_append]
      rw [List.map_append, List.map_append, List.sum_append]
      rfl

theorem categorizeDirectRun_eq (o : Oracle) (txs : List Tx) :
    categorizeDirectRun o txs =
      ((txs.enumFrom 0).map (fun p => processTx o (min 30 txs.length) p.1 p.2),
       ((txs.enumFrom 0).map (fun p => txAttempts o (min 30 txs.length) p.1)).sum) :=
  directLoop_eq o (min 30 txs.length) txs.length txs 0 (Nat.le_refl _)

theorem smartCategorizeRun_fst (o : SOracle) (timeout : Nat → Bool) (txs : List Tx) :
    (smartCategorizeRun o timeout txs).1 =
      txs.map (fanOutTx (smartLoop o timeout 0 (uniqueTransactions txs) ⟨[], 0, 0⟩).map) := rfl

/-! ## Claim C1 -/

/-- C1: classification totality — for every ledger and every external
classifier behaviour (and any timeout behaviour), every transaction
returned by `categorizeTransactions` carries a non-absent category,
merchant and confidence. -/
theorem C1_classification_totality (o : Oracle) (timeout : Nat → Bool) (txs : List Tx) :
    ∀ ct ∈ categorizeTransactions o timeout txs,
      ct.category.isSome ∧ ct.merchant.isSome ∧ ct.confidence.isSome := by
  intro ct hct
  rw [categorizeTransactions] at hct
  by_cases h : 100 < txs.length
  · rw [if_pos h, smartCategorizeRun_fst] at hct
    rcases List.mem_map.mp hct with ⟨t, _, rfl⟩
    rcases fanOutTx_shape _ t with ⟨c, me, q, heq⟩
    rw [heq]
    exact ⟨rfl, rfl, rfl⟩
  · rw [if_neg h] at hct
    have h2 : (categorizeDirectRun o txs).1 =
        (txs.enumFrom 0).map (fun p => processTx o (min 30 txs.length) p.1 p.2) := by
      rw [categorizeDirectRun_eq]
    rw [h2] at hct
    rcases List.mem_map.mp hct with ⟨p, _, rfl⟩
    rcases processTx_shape o (min 30 txs.length) p.1 p.2 with ⟨c, me, q, heq⟩
    rw [heq]
    exact ⟨rfl, rfl, rfl⟩

/-- C1 witness: a one-element ledger under an always-failing
classifier. -/
theorem C1_classification_totality_witness :
    (fallbackCat (mkTx "AIRTIME 500")).category.isSome ∧
    (fallbackCat (mkTx "AIRTIME 500")).merchant.isSome ∧
    (fallbackCat (mkTx "AIRTIME 500")).confidence.isSome :=
  C1_classification_totality failO noTimeout [mkTx "AIRTIME 500"]
    (fallbackCat (mkTx "AIRTIME 500"))
    (by
      have h : categorizeTransactions failO noTimeout [mkTx "AIRTIME 500"] =
          [fallbackCat (mkTx "AIRTIME 500")] := rfl
      rw [h]
      exact List.mem_cons_self _ _)

/-! ## Claim C9 -/

/-- C9: frame property of the orchestrator — the output ledger has the
same length as the input, and the i-th output transaction agrees with
the i-th input transaction on date, description, amount, type, balance
and reference; only category/merchant/confidence are assigned. -/
theorem C9_orchestrator_frame (o : Oracle) (timeout : Nat → Bool) (txs : List Tx) :
    (categorizeTransactions o timeout txs).length = txs.length ∧
    ∀ (i : Nat) (h : i < txs.length) (h2 : i < (categorizeTransactions o timeout txs).length),
      ((categorizeTransactions o timeout txs).get ⟨i, h2⟩).date = (txs.get ⟨i, h⟩).date ∧
      ((categorizeTransactions o timeout txs).get ⟨i, h2⟩).description = (txs.get ⟨i, h⟩).description ∧
      ((categorizeTransactions o timeout txs).get ⟨i, h2⟩).amount = (txs.get ⟨i, h⟩).amount ∧
      ((categorizeTransactions o timeout txs).get ⟨i, h2⟩).type = (txs.get ⟨i, h⟩).type ∧
      ((categorizeTransactions o timeout txs).get ⟨i, h2⟩).balance = (txs.get ⟨i, h⟩).balance ∧
      ((categorizeTransactions o timeout txs).get ⟨i, h2⟩).reference = (txs.get ⟨i, h⟩).reference := by
  rw [categorizeTransactions]
  by_cases h : 100 < txs.length
  · rw [if_pos h, smartCategorizeRun_fst]
    refine ⟨List.length_map _ _, ?_⟩
    intro i hi h2
    have hg : (txs.map (fanOutTx (smartLoop (fun i => o i 0) timeout 0
        (uniqueTransactions txs) ⟨[], 0, 0⟩).map)).get ⟨i, h2⟩ =
        fanOutTx (smartLoop (fun i => o i 0) timeout 0
          (uniqueTransactions txs) ⟨[], 0, 0⟩).map (txs.get ⟨i, hi⟩) := by
      rw [List.get_eq_getElem, List.get_eq_getElem, List.getElem_map]
    rw [hg]
    rcases fanOutTx_shape _ (txs.get ⟨i, hi⟩) with ⟨c, me, q, heq⟩
    rw [heq]
    exact ⟨rfl, rfl, rfl, rfl, rfl, rfl⟩
  · rw [if_neg h]
    have h2 : (categorizeDirectRun o txs).1 =
        (txs.enumFrom 0).map (fun p => processTx o (min 30 txs.length) p.1 p.2) := by
      rw [categorizeDirectRun_eq]
    rw [h2]
    refine ⟨by rw [List.length_map, List.enumFrom_length], ?_⟩
    intro i hi hlt
    have hi2 : i < (txs.enumFrom 0).length := by
      rw [List.enumFrom_length]
      exact hi
    have hg : ((txs.enumFrom 0).map (fun p => processTx o (min 30 txs.length) p.1 p.2)).get
        ⟨i, hlt⟩ = processTx o (min 30 txs.length) (0 + i) (txs.get ⟨i, hi⟩) := by
      rw [List.get_eq_getElem, List.getElem_map, List.getElem_enumFrom]
      rw [List.get_eq_getElem]
    rw [hg]
    rcases processTx_shape o (min 30 txs.length) (0 + i) (txs.get ⟨i, hi⟩) with ⟨c, me, q, heq⟩
    rw [heq]
    exact ⟨rfl, rfl, rfl, rfl, rfl, rfl⟩

/-- C9 witness at a concrete one-element ledger. -/
theorem C9_orchestrator_frame_witness :
    ((categorizeTransactions failO noTimeout [mkTx "POS BUY 77"]).get
      ⟨0, by decide⟩).description = ((mkTx "POS BUY 77")).description :=
  ((C9_orchestrator_frame failO noTimeout [mkTx "POS BUY 77"]).2 0 (by decide)
    (by decide)).2.1

/-! ## Claim C2 -/

theorem smartLoop_frozen (o : SOracle) (timeout : Nat → Bool) (i : Nat)
    (us : List Tx) (st : SmartSt) (h : 3 ≤ st.fails) :
    smartLoop o timeout i us st = st := by
  cases us with
  | nil => rfl
  | cons u rest =>
    rw [smartLoop.eq_def]
    dsimp only
    by_cases ht : timeout i = true
    · rw [if_pos ht]
    · rw [if_neg ht, if_pos h]

theorem fanOutTx_miss (m : AMap) (t : Tx)
    (h : amapGet m (normalizeDescription t.description) = none) :
    fanOutTx m t = fallbackCat t := by
  rw [fanOutTx, h]
  rfl

theorem txAttempts_pos (o : Oracle) (m gi : Nat) (h : gi < m) :
    1 ≤ txAttempts o m gi := by
  rw [txAttempts, if_pos h]
  cases o gi 0 <;> simp

theorem attempts_sum_ge (o : Oracle) (m : Nat) :
    ∀ (l : List Tx) (gi : Nat),
      min m (gi + l.length) - gi ≤ ((l.enumFrom gi).map (fun p => txAttempts o m p.1)).sum := by
  intro l
  induction l with
  | nil =>
    intro gi
    simp
  | cons t r ih =>
    intro gi
    rw [List.enumFrom_cons, List.map_cons, List.sum_cons]
    have ihgi := ih (gi + 1)
    simp only [List.length_cons]
    by_cases h : gi < m
    · have h1 := txAttempts_pos o m gi h
      omega
    · omega

/-- Counterexample to C2 as stated.  With an always-failing classifier,
the grouped strategy invokes the external classifier for 4 distinct
groups — the third consecutive failure happens mid-batch and the fourth
group is still sent out before the breaker (checked only at batch
boundaries) stops the run; the claim's "no further external call after
3 consecutive failures" would bound the count by 3.  The direct
strategy has no circuit breaker at all: on a 4-transaction ledger every
transaction is retried twice, for 8 external attempts. -/
theorem C2_counterexample :
    (smartCategorizeRun failS noTimeout c6txs).2.calls = 4 ∧
    3 < (smartCategorizeRun failS noTimeout c6txs).2.calls ∧
    (categorizeDirectRun failO [mkTx "a1", mkTx "b2", mkTx "c3", mkTx "d4"]).2 = 8 ∧
    3 < (categorizeDirectRun failO [mkTx "a1", mkTx "b2", mkTx "c3", mkTx "d4"]).2 :=
  ⟨by decide, by decide, by decide, by decide⟩

/-- C2 (amended): the circuit breaker exists only in the grouped
strategy and is checked at batch boundaries: (1) once the consecutive
failure count is at least 3 when a batch would start, the AI loop stops
— the categorization map and the invocation count are frozen, so no
further external call is made in that run; (2) every transaction whose
normalized key is absent from the map receives exactly the fallback
result, whose confidence is 0.3; (3) the direct strategy invokes the
external classifier for every one of its first `min 30 n` transactions
regardless of failures (no breaker). -/
theorem C2_circuit_breaker :
    (∀ (o : SOracle) (timeout : Nat → Bool) (i : Nat) (us : List Tx) (st : SmartSt),
      3 ≤ st.fails → smartLoop o timeout i us st = st) ∧
    (∀ (m : AMap) (t : Tx),
      amapGet m (normalizeDescription t.description) = none →
      fanOutTx m t = fallbackCat t ∧ (fallbackCat t).confidence = some 0.3) ∧
    (∀ (o : Oracle) (txs : List Tx),
      min 30 txs.length ≤ (categorizeDirectRun o txs).2) := by
  refine ⟨smartLoop_frozen, ?_, ?_⟩
  · intro m t h
    exact ⟨fanOutTx_miss m t h, rfl⟩
  · intro o txs
    have h := attempts_sum_ge o (min 30 txs.length) txs 0
    rw [categorizeDirectRun_eq]
    simpa using h

/-- C2 witness: the amended statement applied at concrete inputs — a
frozen loop state with 3 failures, an empty map miss, and a
2-transaction direct run. -/
theorem C2_circuit_breaker_witness :
    smartLoop failS noTimeout 0 [mkTx "omega"] ⟨[], 3, 3⟩ = ⟨[], 3, 3⟩ ∧
    fanOutTx [] (mkTx "omega") = fallbackCat (mkTx "omega") ∧
    min 30 2 ≤ (categorizeDirectRun failO [mkTx "p", mkTx "q"]).2 :=
  ⟨C2_circuit_breaker.1 failS noTimeout 0 [mkTx "omega"] ⟨[], 3, 3⟩ (by decide),
   (C2_circuit_breaker.2.1 [] (mkTx "omega") rfl).1,
   C2_circuit_breaker.2.2 failO [mkTx "p", mkTx "q"]⟩

/-! ## Claim C5 -/

/-- Counterexample to C5 as stated.  In the document
`"KingTB Plaza, Zenith Bank Statement"` the 3-letter code `"gtb"`
occurs only inside the address token `KingTB`, no genuine GTBank
indicator phrase occurs, and the genuine indicator `"Zenith Bank"` of
another institution is present — yet `detectBankType` answers
`"gtbank"`, not `"zenith"` or `"generic"`: the short-code dialect is
checked first, not last. -/
theorem C5_counterexample :
    PDFParser.detectBankType "KingTB Plaza, Zenith Bank Statement" = "gtbank" ∧
    hasSub (jsToLower "KingTB Plaza, Zenith Bank Statement") "zenith bank" = true ∧
    hasSub (jsToLower "KingTB Plaza, Zenith Bank Statement") "guaranty trust bank" = false ∧
    hasSub (jsToLower "KingTB Plaza, Zenith Bank Statement") "gtbank" = false ∧
    ("gtbank" : String) ≠ "zenith" ∧ ("gtbank" : String) ≠ "generic" :=
  ⟨by decide, by decide, by decide, by decide, by decide, by decide⟩

/-- C5 (amended): dialects are checked in fixed registry order, and the
GTBank entry — whose indicator list contains the bare 3-letter code
`"gtb"` — comes first: every document whose lowercased text contains
`"gtb"` anywhere (also as an accidental substring) is detected as
`"gtbank"`, regardless of any other institution's genuine indicator
phrases.  There is no higher-specificity-first tie-break. -/
theorem C5_dialect_order (s : String)
    (h : hasSub (jsToLower s) "gtb" = true) :
    PDFParser.detectBankType s = "gtbank" := by
  simp only [PDFParser.detectBankType, bankIndicators]
  have hp : (fun p : String × List String =>
      p.2.any (fun ind => hasSub (jsToLower s) (jsToLower ind)))
      ("gtbank", ["Guaranty Trust Bank", "GTBank", "gtb"]) = true := by
    show (["Guaranty Trust Bank", "GTBank", "gtb"] : List String).any
      (fun ind => hasSub (jsToLower s) (jsToLower ind)) = true
    rw [List.any_eq_true]
    exact ⟨"gtb", by simp, h⟩
  have hf := @List.find?_cons_of_pos (String × List String)
    (fun p => p.2.any (fun ind => hasSub (jsToLower s) (jsToLower ind)))
    ("gtbank", ["Guaranty Trust Bank", "GTBank", "gtb"])
    [("access", ["Access Bank", "Diamond Bank"]),
     ("firstbank", ["First Bank", "FirstBank"]), ("zenith", ["Zenith Bank"]),
     ("uba", ["United Bank for Africa", "UBA"]), ("fidelity", ["Fidelity Bank"]),
     ("wema", ["Wema Bank"]), ("union", ["Union Bank"]),
     ("opay", ["OPay", "Wallet Account", "OWealth Balance", "Blue Ridge Microfinance"])]
    hp
  rw [hf]

/-- C5 witness: the amended statement at the concrete document. -/
theorem C5_dialect_order_witness :
    PDFParser.detectBankType "KingTB Plaza, 5 Marina Road" = "gtbank" :=
  C5_dialect_order "KingTB Plaza, 5 Marina Road" (by decide)

/-! ## Claim C4 -/

theorem mem_trimList {c : Char} {l : List Char} (h : c ∈ trimList l) : c ∈ l := by
  rw [trimList] at h
  exact dropWhile_mem (mem_trimRight h)

theorem mem_takeWhile {p : Char → Bool} {c : Char} :
    ∀ {l : List Char}, c ∈ l.takeWhile p → c ∈ l
  | [], h => by simp at h
  | a :: r, h => by
    rw [List.takeWhile] at h
    by_cases ha : p a = true
    · rw [ha] at h
      simp only [cond_true] at h
      rcases List.mem_cons.mp h with h2 | h2
      · simp [h2]
      · exact List.mem_cons_of_mem a (mem_takeWhile h2)
    · rw [Bool.not_eq_true] at ha
      rw [ha] at h
      simp at h

theorem mem_stripDots {c : Char} {l : List Char} (h : c ∈ stripDotsExceptLast l) :
    c ∈ l ∨ c = '.' := by
  simp only [stripDotsExceptLast] at h
  split at h
  · rename_i before heq
    rcases List.mem_append.mp h with h2 | h2
    · have h3 : c ∈ before.reverse := List.mem_of_mem_filter h2
      have h4 : c ∈ ('.' :: before) := List.mem_cons_of_mem _ (by simpa using h3)
      rw [← heq] at h4
      exact Or.inl (by simpa using dropWhile_mem h4)
    · rcases List.mem_cons.mp h2 with h3 | h3
      · exact Or.inr h3
      · have h4 : c ∈ l.reverse.takeWhile (fun c => c ≠ '.') := by simpa using h3
        exact Or.inl (by simpa using mem_takeWhile h4)
  · exact Or.inl h

theorem readDigits_no_digits : ∀ (l : List Char), (∀ c ∈ l, isDigitCh c = false) →
    readDigits l = ([], l)
  | [], _ => rfl
  | c :: r, h => by
    rw [readDigits.eq_def]
    dsimp only
    rw [h c (List.mem_cons_self c r)]
    simp

theorem jsSplitSign_snd_mem {c : Char} {cs : List Char}
    (h : c ∈ (jsSplitSign cs).2) : c ∈ cs := by
  rw [jsSplitSign.eq_def] at h
  split at h
  · exact List.mem_cons_of_mem _ h
  · exact List.mem_cons_of_mem _ h
  · exact h

theorem jsFrac_fst_no_digits (l : List Char) (h : ∀ c ∈ l, isDigitCh c = false) :
    (jsFrac l).1 = [] := by
  rw [jsFrac.eq_def]
  split
  · rename_i r
    rw [readDigits_no_digits r (fun c hc => h c (List.mem_cons_of_mem _ hc))]
  · rfl

theorem no_I_leadsWith (l : List Char) (h : 'I' ∉ l) :
    leadsWith infinityLit l = false := by
  cases l with
  | nil => rfl
  | cons c r =>
    simp only [infinityLit, leadsWith]
    by_cases hc : 'I' = c
    · subst hc
      exact absurd (List.mem_cons_self _ _) h
    · simp [hc]

theorem jsParseFloat_no_digits (s : String) (h : ∀ c ∈ s.data, isDigitCh c = false)
    (hI : 'I' ∉ s.data) :
    jsParseFloat s = none := by
  have hsub : ∀ c ∈ (jsSplitSign (s.data.dropWhile isWsCh)).2, isDigitCh c = false :=
    fun c hc => h c (dropWhile_mem (jsSplitSign_snd_mem hc))
  have hIsub : 'I' ∉ (jsSplitSign (s.data.dropWhile isWsCh)).2 :=
    fun hc => hI (dropWhile_mem (jsSplitSign_snd_mem hc))
  simp only [jsParseFloat]
  rw [no_I_leadsWith _ hIsub]
  rw [if_neg (by simp)]
  rw [readDigits_no_digits _ hsub]
  dsimp only
  rw [jsFrac_fst_no_digits _ hsub]
  simp

theorem jsFloat_abs_isNeg (f : JsFloat) : f.abs.isNeg = false := by
  cases f with
  | fin q =>
    simp only [JsFloat.abs, JsFloat.isNeg]
    exact decide_eq_false (not_lt.mpr (abs_nonneg q))
  | inf b => rfl

theorem pdf_parseAmount_nonneg (s : String) :
    (PDFParser.parseAmount s).isNeg = false := by
  simp only [PDFParser.parseAmount]
  split
  · simp only [JsFloat.isNeg]
    exact decide_eq_false (lt_irrefl (0 : ℚ))
  · split
    · simp only [JsFloat.isNeg]
      exact decide_eq_false (lt_irrefl (0 : ℚ))
    · exact jsFloat_abs_isNeg _

theorem pdf_parseAmount_no_digits (s : String) (h : ∀ c ∈ s.data, isDigitCh c = false)
    (hI : 'I' ∉ s.data) :
    PDFParser.parseAmount s = JsFloat.fin 0 := by
  simp only [PDFParser.parseAmount]
  split
  · rfl
  · set cl := trimList (s.data.filter
      (fun c => !(charIn c currencyChars || isWsCh c || c = '(' || c = ')'))) with hcl
    have hclean : ∀ c ∈ cl, isDigitCh c = false := by
      intro c hc
      rw [hcl] at hc
      exact h c (List.mem_of_mem_filter (mem_trimList hc))
    have hIcl : 'I' ∉ cl := by
      intro hc
      rw [hcl] at hc
      exact hI (List.mem_of_mem_filter (mem_trimList hc))
    by_cases hdot : 1 < cl.count '.'
    · have hd : ∀ c ∈ (⟨stripDotsExceptLast cl⟩ : String).data, isDigitCh c = false := by
        intro c hc
        rcases mem_stripDots (show c ∈ stripDotsExceptLast cl from hc) with h2 | h2
        · exact hclean c h2
        · rw [h2]
          rfl
      have hdI : 'I' ∉ (⟨stripDotsExceptLast cl⟩ : String).data := by
        intro hc
        rcases mem_stripDots (show 'I' ∈ stripDotsExceptLast cl from hc) with h2 | h2
        · exact hIcl h2
        · exact absurd h2 (by decide)
      rw [if_pos hdot, jsParseFloat_no_digits ⟨stripDotsExceptLast cl⟩ hd hdI]
    · rw [if_neg hdot, jsParseFloat_no_digits ⟨cl⟩ hclean hIcl]

theorem csv_parseAmount_no_digits (s : String) (h : ∀ c ∈ s.data, isDigitCh c = false)
    (hI : 'I' ∉ s.data) :
    CSVParser.parseAmount (JsVal.str s) = JsFloat.fin 0 := by
  simp only [CSVParser.parseAmount]
  split
  · rfl
  · rw [jsParseFloat_no_digits ⟨trimList ((s.data.filter
      (fun c => !(charIn c currencyChars || isWsCh c))).filter
      (fun c => !(c = '(' || c = ')')))⟩ (fun c hc =>
      h c (List.mem_of_mem_filter (List.mem_of_mem_filter (mem_trimList hc))))
      (fun hc => hI (List.mem_of_mem_filter (List.mem_of_mem_filter (mem_trimList hc))))]

theorem excel_parseAmount_no_digits (s : String) (h : ∀ c ∈ s.data, isDigitCh c = false)
    (hI : 'I' ∉ s.data) :
    ExcelParser.parseAmount (Cell.str s) = JsFloat.fin 0 := by
  simp only [ExcelParser.parseAmount]
  split
  · rfl
  · rw [jsParseFloat_no_digits ⟨trimList (s.data.filter
      (fun c => !(charIn c currencyChars || isWsCh c || c = '(' || c = ')')))⟩ (fun c hc =>
      h c (List.mem_of_mem_filter (mem_trimList hc)))
      (fun hc => hI (List.mem_of_mem_filter (mem_trimList hc)))]

/-- Counterexample to C4 as stated.  The amount parser of the
delimited-text (CSV) family returns `-100` — a negative number — on the
input string `"-100"`, and the spreadsheet family's parser returns the
signed numeric cell value unchanged; only the document-text (PDF)
family takes an absolute value. -/
theorem C4_counterexample :
    CSVParser.parseAmount (JsVal.str "-100") = JsFloat.fin (-100) ∧
    (CSVParser.parseAmount (JsVal.str "-100")).isNeg = true ∧
    ExcelParser.parseAmount (Cell.num (-5)) = JsFloat.fin (-5) := by
  have hshape : CSVParser.parseAmount (JsVal.str "-100") =
      JsFloat.fin (-1 * (((digitsToNat ['1', '0', '0'] : ℚ) +
        (digitsToNat ([] : List Char) : ℚ) / (10 : ℚ) ^ (0 : ℕ)) *
        (10 : ℚ) ^ (0 : ℤ))) := rfl
  have h100 : (digitsToNat ['1', '0', '0'] : ℕ) = 100 := rfl
  have h0 : (digitsToNat ([] : List Char) : ℕ) = 0 := rfl
  have key : CSVParser.parseAmount (JsVal.str "-100") = JsFloat.fin (-100) := by
    rw [hshape, h100, h0]
    norm_num
  refine ⟨key, ?_, rfl⟩
  rw [key]
  simp only [JsFloat.isNeg]
  exact decide_eq_true (by norm_num)

/-- C4 (amended): every family's `parseAmount` is total and never
throws.  On input with no digit and no `Infinity` literal (formalized
conservatively: no capital `I` at all, which the character-stripping
passes can never introduce) it returns 0.  JS `parseFloat` also
accepts the `Infinity` literal, which the
parsers propagate: `±Infinity` signed for CSV/Excel, `Math.abs`, hence
`+Infinity`, for PDF.  The document-text (PDF) parser's result is
never negative, while the CSV and spreadsheet parsers return the
signed value (their callers apply `Math.abs` and derive the direction
separately). -/
theorem C4_parseAmount_safety :
    (∀ s : String, (PDFParser.parseAmount s).isNeg = false) ∧
    (∀ s : String, (∀ c ∈ s.data, isDigitCh c = false) → 'I' ∉ s.data →
      PDFParser.parseAmount s = JsFloat.fin 0 ∧
      CSVParser.parseAmount (JsVal.str s) = JsFloat.fin 0 ∧
      ExcelParser.parseAmount (Cell.str s) = JsFloat.fin 0) ∧
    (CSVParser.parseAmount (JsVal.str "Infinity") = JsFloat.inf false ∧
      CSVParser.parseAmount (JsVal.str "-Infinity") = JsFloat.inf true ∧
      ExcelParser.parseAmount (Cell.str "Infinity") = JsFloat.inf false ∧
      PDFParser.parseAmount "-Infinity" = JsFloat.inf false) ∧
    (∀ q : ℚ, CSVParser.parseAmount (JsVal.num q) = JsFloat.fin q ∧
      ExcelParser.parseAmount (Cell.num q) = JsFloat.fin q) :=
  ⟨pdf_parseAmount_nonneg,
   fun s h hI => ⟨pdf_parseAmount_no_digits s h hI, csv_parseAmount_no_digits s h hI,
     excel_parseAmount_no_digits s h hI⟩,
   ⟨rfl, rfl, rfl, rfl⟩,
   fun _ => ⟨rfl, rfl⟩⟩

/-- C4 witness: the no-digit clause applied to the concrete input
`"N/A"`. -/
theorem C4_parseAmount_safety_witness :
    PDFParser.parseAmount "N/A" = JsFloat.fin 0 ∧
    CSVParser.parseAmount (JsVal.str "N/A") = JsFloat.fin 0 ∧
    ExcelParser.parseAmount (Cell.str "N/A") = JsFloat.fin 0 :=
  C4_parseAmount_safety.2.1 "N/A" (by decide) (by decide)

/-! ## Claim C8 -/

/-- Mean amount over all transactions of the ledger (credits
included), as the source computes it. -/
def meanAmount (txs : List CatTx) : ℚ :=
  ((txs.map CatTx.amount).sum) / (txs.length : ℚ)

/-- Mean amount over the debit transactions only (what the claim
says the threshold is based on). -/
def meanDebitAmount (txs : List CatTx) : ℚ :=
  (((txs.filter (fun t => t.type = TxType.debit)).map CatTx.amount).sum) /
    ((txs.filter (fun t => t.type = TxType.debit)).length : ℚ)

/-- The report record built for one flagged transaction. -/
def mkUnusual (txs : List CatTx) (t : CatTx) : Unusual :=
  { date := t.date, description := t.description, amount := t.amount,
    reason := "Amount is " ++ toString (jsRound (t.amount / meanAmount txs)) ++
      "x higher than average" }

theorem findUnusual_eq (txs : List CatTx) :
    findUnusualTransactions txs =
      if txs.length = 0 then []
      else ((txs.filter (fun t => meanAmount txs * 3 < t.amount)).map
        (mkUnusual txs)).take 5 := by
  simp only [findUnusualTransactions]
  by_cases h : txs.length = 0
  · rw [if_pos h, if_pos h]
  · rw [if_neg h, if_neg h]
    have hm : (txs.map CatTx.amount).foldl (fun s a => s + a) (0 : ℚ) /
        ((txs.map CatTx.amount).length : ℚ) = meanAmount txs := by
      rw [meanAmount, List.sum_eq_foldl, List.length_map]
    rw [hm]
    rfl

/-- A classified transaction fixture for the aggregator claims. -/
def mkCTx (d : String) (ty : TxType) (a : ℚ) (mer : String) : CatTx :=
  { date := 0, description := d, amount := a, type := ty, balance := none,
    reference := none, category := some "Other", merchant := some mer,
    confidence := some 1 }

/-- Ledger with one large credit and four small debits. -/
def c8a : List CatTx :=
  [mkCTx "SALARY" TxType.credit 10000 "Employer",
   mkCTx "POS 1" TxType.debit 100 "A", mkCTx "POS 2" TxType.debit 100 "B",
   mkCTx "POS 3" TxType.debit 100 "C", mkCTx "POS 4" TxType.debit 100 "D"]

/-- The all-debit ledger of the claim's own example. -/
def c8b : List CatTx :=
  [mkCTx "POS 1" TxType.debit 100 "A", mkCTx "POS 2" TxType.debit 100 "B",
   mkCTx "POS 3" TxType.debit 100 "C", mkCTx "POS 4" TxType.debit 100 "D",
   mkCTx "BIG BUY" TxType.debit 5000 "E"]

/-- Counterexample to C8 as stated.  `findUnusualTransactions` computes
the mean over *all* transactions (credits included) and flags
transactions of *any* type: on `c8a` the mean is 2080, the threshold
6240, and the flagged transaction is the `SALARY` *credit*, although no
debit exceeds 3 times the mean debit amount (100).  On the claim's own
all-debit example the flagged set matches, but the annotation is the
*rounded* multiple `"5x"`, not ≈4.6. -/
theorem C8_counterexample :
    (findUnusualTransactions c8a).map (fun u => u.description) = ["SALARY"] ∧
    (c8a.head?).map CatTx.type = some TxType.credit ∧
    meanDebitAmount c8a = 100 ∧
    (∀ t ∈ c8a, t.type = TxType.debit → ¬(meanDebitAmount c8a * 3 < t.amount)) ∧
    (findUnusualTransactions c8b).map (fun u => u.description) = ["BIG BUY"] ∧
    (findUnusualTransactions c8b).map (fun u => u.reason) =
      ["Amount is 5x higher than average"] := by
  have hma : meanAmount c8a = 2080 := by
    rw [meanAmount]
    norm_num [c8a, mkCTx]
  have hmb : meanAmount c8b = 1080 := by
    rw [meanAmount]
    norm_num [c8b, mkCTx]
  have hne : (TxType.credit = TxType.debit) = False := by
    simp only [eq_iff_iff, iff_false]
    exact fun h => TxType.noConfusion h
  have heq : (TxType.debit = TxType.debit) = True := by
    simp only [eq_iff_iff, iff_true]
  have hmd : meanDebitAmount c8a = 100 := by
    rw [meanDebitAmount]
    norm_num [c8a, mkCTx, List.filter_cons, List.filter_nil, hne, heq]
  have hfa : c8a.filter (fun t => meanAmount c8a * 3 < t.amount) =
      [mkCTx "SALARY" TxType.credit 10000 "Employer"] := by
    rw [hma]
    norm_num [c8a, mkCTx, List.filter_cons, List.filter_nil]
  have hfb : c8b.filter (fun t => meanAmount c8b * 3 < t.amount) =
      [mkCTx "BIG BUY" TxType.debit 5000 "E"] := by
    rw [hmb]
    norm_num [c8b, mkCTx, List.filter_cons, List.filter_nil]
  have hr : jsRound ((5000 : ℚ) / 1080) = 5 := by
    rw [jsRound]
    norm_num
  refine ⟨?_, rfl, hmd, ?_, ?_, ?_⟩
  · rw [findUnusual_eq, if_neg (by norm_num [c8a]), hfa]
    rfl
  · intro t ht htt
    rw [hmd]
    fin_cases ht <;> simp_all [mkCTx]
  · rw [findUnusual_eq, if_neg (by norm_num [c8b]), hfb]
    rfl
  · rw [findUnusual_eq, if_neg (by norm_num [c8b]), hfb]
    simp only [List.map_cons, List.map_nil, mkUnusual, mkCTx, hmb]
    rw [List.take_of_length_le (by norm_num)]
    rw [hr]
    rfl

/-- C8 (amended): `findUnusualTransactions` returns the empty list on
an empty ledger; otherwise it flags the transactions of *any* type
whose amount exceeds 3 times the mean amount of *all* transactions,
annotates each with the *rounded* multiple of that mean, and keeps the
first 5 in ledger order (so at most 5 are reported). -/
theorem C8_unusual_transactions (txs : List CatTx) :
    (findUnusualTransactions txs).length ≤ 5 ∧
    findUnusualTransactions txs =
      if txs.length = 0 then []
      else ((txs.filter (fun t => meanAmount txs * 3 < t.amount)).map
        (mkUnusual txs)).take 5 := by
  refine ⟨?_, findUnusual_eq txs⟩
  rw [findUnusual_eq]
  by_cases h : txs.length = 0
  · rw [if_pos h]
    simp
  · rw [if_neg h]
    exact List.length_take_le _ _

/-! ## Claim C7 -/

/-- A transaction enters the merchant grouping iff it is a debit with a
truthy merchant (the grouping condition of `merchantFrequency`). -/
def qualTx (t : CatTx) : Bool :=
  (t.type = TxType.debit) && truthyMerchant t

/-- The grouping key of a transaction. -/
def txKey (t : CatTx) : String :=
  t.merchant.getD ""

/-- Keys in first-appearance order, duplicates dropped. -/
def firstSeen : List String → List String
  | [] => []
  | k :: rest => k :: (firstSeen rest).filter (fun x => x ≠ k)

/-- The distinct grouping keys of a ledger, in first-appearance order
(the insertion order of the JS `Map`). -/
def merchKeys (txs : List CatTx) : List String :=
  firstSeen ((txs.filter qualTx).map txKey)

/-- The group of a given merchant: the qualifying transactions whose
key is that merchant, in ledger order. -/
def debitsFor (txs : List CatTx) (m : String) : List CatTx :=
  (txs.filter qualTx).filter (fun t => txKey t = m)

theorem mem_firstSeen (x : String) (l : List String) : x ∈ firstSeen l ↔ x ∈ l := by
  induction l with
  | nil => simp [firstSeen]
  | cons a l ih =>
    simp only [firstSeen, List.mem_cons, List.mem_filter, decide_eq_true_eq, ne_eq]
    constructor
    · rintro (rfl | ⟨hx, _⟩)
      · exact Or.inl rfl
      · exact Or.inr (ih.mp hx)
    · rintro (rfl | hx)
      · exact Or.inl rfl
      · by_cases hxa : x = a
        · exact Or.inl hxa
        · exact Or.inr ⟨ih.mpr hx, hxa⟩

theorem firstSeen_nodup (l : List String) : (firstSeen l).Nodup := by
  induction l with
  | nil => simp [firstSeen]
  | cons a l ih =>
    rw [firstSeen, List.nodup_cons]
    refine ⟨?_, ih.filter _⟩
    intro hmem
    rcases List.mem_filter.mp hmem with ⟨_, hne⟩
    simp at hne

theorem firstSeen_append (l : List String) (k : String) :
    firstSeen (l ++ [k]) = if k ∈ l then firstSeen l else firstSeen l ++ [k] := by
  induction l with
  | nil => simp [firstSeen]
  | cons a l ih =>
    have hstep : firstSeen ((a :: l) ++ [k]) =
        a :: (firstSeen (l ++ [k])).filter (fun x => x ≠ a) := rfl
    have hfa : firstSeen (a :: l) = a :: (firstSeen l).filter (fun x => x ≠ a) := rfl
    rw [hstep, ih, hfa]
    by_cases hk : k ∈ a :: l
    · rw [if_pos hk]
      rcases List.mem_cons.mp hk with rfl | hkl
      · by_cases hkl' : k ∈ l
        · rw [if_pos hkl']
        · rw [if_neg hkl', List.filter_append]
          simp [firstSeen]
      · rw [if_pos hkl]
    · have hka : k ≠ a := fun h => hk (h ▸ List.mem_cons_self a l)
      have hkl : k ∉ l := fun h => hk (List.mem_cons_of_mem a h)
      rw [if_neg hk, if_neg hkl, List.filter_append]
      simp [hka]

theorem insGroup_map (keys : List String) (f : String → List CatTx) (k : String)
    (t : CatTx) (hnd : keys.Nodup) :
    insGroup (keys.map (fun m => (m, f m))) k t =
      if k ∈ keys then
        keys.map (fun m => (m, if m = k then f m ++ [t] else f m))
      else keys.map (fun m => (m, f m)) ++ [(k, [t])] := by
  induction keys with
  | nil => simp [insGroup]
  | cons a ks ih =>
    rcases List.nodup_cons.mp hnd with ⟨hak, hnd'⟩
    simp only [List.map_cons, insGroup]
    by_cases hk : a = k
    · subst hk
      rw [if_pos rfl, if_pos (List.mem_cons_self _ _)]
      simp only [List.map_cons, if_pos rfl]
      congr 1
      apply List.map_congr_left
      intro m hm
      rw [if_neg (show ¬(m = a) from fun h => hak (h ▸ hm))]
    · rw [if_neg hk, ih hnd']
      by_cases hkk : k ∈ ks
      · rw [if_pos hkk, if_pos (List.mem_cons_of_mem _ hkk)]
        rw [if_neg hk]
      · rw [if_neg hkk,
          if_neg (show ¬(k ∈ a :: ks) from
            fun h => (List.mem_cons.mp h).elim (fun h' => hk h'.symm) hkk)]
        rfl

theorem merchantFrequency_append (txs : List CatTx) (t : CatTx) :
    merchantFrequency (txs ++ [t]) =
      if qualTx t then insGroup (merchantFrequency txs) (txKey t) t
      else merchantFrequency txs := by
  simp only [merchantFrequency, List.foldl_append, List.foldl_cons, List.foldl_nil]
  rfl

theorem merchKeys_append (txs : List CatTx) (t : CatTx) :
    merchKeys (txs ++ [t]) =
      if qualTx t then
        (if txKey t ∈ merchKeys txs then merchKeys txs else merchKeys txs ++ [txKey t])
      else merchKeys txs := by
  simp only [merchKeys, List.filter_append, List.map_append]
  by_cases hq : qualTx t
  · have h1 : [t].filter qualTx = [t] := by simp [List.filter_cons, hq]
    rw [h1, if_pos hq]
    simp only [List.map_cons, List.map_nil]
    rw [firstSeen_append]
    by_cases hm : txKey t ∈ (txs.filter qualTx).map txKey
    · rw [if_pos hm, if_pos ((mem_firstSeen _ _).mpr hm)]
    · rw [if_neg hm, if_neg (fun h => hm ((mem_firstSeen _ _).mp h))]
  · have h1 : [t].filter qualTx = [] := by simp [List.filter_cons, hq]
    rw [h1, if_neg hq]
    simp

theorem debitsFor_append (txs : List CatTx) (t : CatTx) (m : String) :
    debitsFor (txs ++ [t]) m =
      debitsFor txs m ++ (if qualTx t && (txKey t = m) then [t] else []) := by
  simp only [debitsFor, List.filter_append]
  by_cases hq : qualTx t
  · have h1 : [t].filter qualTx = [t] := by simp [List.filter_cons, hq]
    rw [h1]
    by_cases hm : txKey t = m
    · simp [List.filter_cons, hq, hm]
    · simp [List.filter_cons, hq, hm]
  · have h1 : [t].filter qualTx = [] := by simp [List.filter_cons, hq]
    rw [h1]
    simp [hq]

theorem debitsFor_eq_nil (txs : List CatTx) (k : String) (h : k ∉ merchKeys txs) :
    debitsFor txs k = [] := by
  rw [debitsFor, List.filter_eq_nil_iff]
  intro t ht hkey
  apply h
  rw [merchKeys, mem_firstSeen]
  exact List.mem_map.mpr ⟨t, ht, by simpa using hkey⟩

theorem merchantFrequency_eq (txs : List CatTx) :
    merchantFrequency txs = (merchKeys txs).map (fun m => (m, debitsFor txs m)) := by
  induction txs using List.reverseRecOn with
  | nil => rfl
  | append_singleton txs t ih =>
    rw [merchantFrequency_append, ih, merchKeys_append]
    have hnd : (merchKeys txs).Nodup := firstSeen_nodup _
    by_cases hq : qualTx t
    · rw [if_pos hq, if_pos hq,
        insGroup_map (merchKeys txs) (fun m => debitsFor txs m) (txKey t) t hnd]
      by_cases hmem : txKey t ∈ merchKeys txs
      · rw [if_pos hmem, if_pos hmem]
        apply List.map_congr_left
        intro m hm
        rw [debitsFor_append]
        by_cases hmk : m = txKey t
        · rw [if_pos hmk,
            if_pos (by rw [hq, hmk]; simp)]
        · rw [if_neg hmk,
            if_neg (by simp [hq]; exact fun h => hmk h.symm)]
          simp
      · rw [if_neg hmem, if_neg hmem, List.map_append]
        congr 1
        · apply List.map_congr_left
          intro m hm
          rw [debitsFor_append,
            if_neg (by simp [hq]; exact fun h => hmem (h ▸ hm))]
          simp
        · simp only [List.map_cons, List.map_nil]
          rw [debitsFor_append, debitsFor_eq_nil _ _ hmem,
            if_pos (by rw [hq]; simp)]
          simp
    · rw [if_neg hq, if_neg hq]
      apply List.map_congr_left
      intro m hm
      rw [debitsFor_append, if_neg (by simp [hq])]
      simp

/-- Ledger with five merchants of 3 debits each, in order, followed by
a sixth merchant with 4 debits. -/
def c7txs : List CatTx :=
  [mkCTx "a1" TxType.debit 100 "M1", mkCTx "a2" TxType.debit 100 "M1",
   mkCTx "a3" TxType.debit 100 "M1",
   mkCTx "b1" TxType.debit 100 "M2", mkCTx "b2" TxType.debit 100 "M2",
   mkCTx "b3" TxType.debit 100 "M2",
   mkCTx "c1" TxType.debit 100 "M3", mkCTx "c2" TxType.debit 100 "M3",
   mkCTx "c3" TxType.debit 100 "M3",
   mkCTx "d1" TxType.debit 100 "M4", mkCTx "d2" TxType.debit 100 "M4",
   mkCTx "d3" TxType.debit 100 "M4",
   mkCTx "e1" TxType.debit 100 "M5", mkCTx "e2" TxType.debit 100 "M5",
   mkCTx "e3" TxType.debit 100 "M5",
   mkCTx "f1" TxType.debit 100 "M6", mkCTx "f2" TxType.debit 100 "M6",
   mkCTx "f3" TxType.debit 100 "M6", mkCTx "f4" TxType.debit 100 "M6"]

/-- Counterexample to C7 as stated: `findRecurringPayments` keeps the
*first* 5 qualifying merchants in map insertion order, not the top 5 by
transaction count.  On `c7txs` the merchant `M6` has 4 debit
transactions — strictly more than each of the five reported merchants,
which have 3 — yet `M6` is not reported. -/
theorem C7_counterexample :
    (findRecurringPayments c7txs).map Recurring.merchant =
      ["M1", "M2", "M3", "M4", "M5"] ∧
    (findRecurringPayments c7txs).map
      (fun r => (debitsFor c7txs r.merchant).length) = [3, 3, 3, 3, 3] ∧
    (debitsFor c7txs "M6").length = 4 ∧
    "M6" ∉ (findRecurringPayments c7txs).map Recurring.merchant := by
  refine ⟨by decide, by decide, by decide, by decide⟩

/-- C7 (amended): `findRecurringPayments` reports, in first-appearance
order, the merchants with at least 3 grouped transactions (debits with
a truthy merchant), each with its average amount, its frequency label
from `calculateFrequency` (mean inter-transaction gap: weekly ≤ 7 days,
monthly ≤ 31, quarterly ≤ 93, else irregular), and its most recent
date; the *first* 5 qualifying merchants in that order are kept, not
the top 5 by transaction count. -/
theorem C7_recurring_payments (txs : List CatTx) :
    findRecurringPayments txs =
      (((merchKeys txs).filter (fun m => 3 ≤ (debitsFor txs m).length)).map
        (fun m =>
          { merchant := m,
            amount := ((debitsFor txs m).foldl (fun s t => s + t.amount) (0 : ℚ)) /
              ((debitsFor txs m).length : ℚ),
            frequency := calculateFrequency (debitsFor txs m),
            lastDate := maxDate (debitsFor txs m) })).take 5 := by
  rw [findRecurringPayments, merchantFrequency_eq, List.filter_map, List.map_map]
  rfl

/-! ## Claim C3 -/

theorem trimList_idem (l : List Char) : trimList (trimList l) = trimList l := by
  rw [trimList, trimList]
  have hd : (trimRight (l.dropWhile isWsCh)).dropWhile isWsCh
      = trimRight (l.dropWhile isWsCh) := by
    apply dropWhile_eq_self_of_head
    intro t ts h
    rcases trimRight_head h with ⟨rs, hr⟩
    exact dropWhile_head hr
  rw [hd, trimRight_idem]

theorem jsTrim_idem (s : String) : jsTrim (jsTrim s) = jsTrim s :=
  congrArg String.mk (trimList_idem s.data)

theorem excelDesc_go_trim (L : Libs) (rowData : List (String × Cell))
    (headers : List String) (fs : List String) :
    jsTrim (ExcelParser.extractDescription.go L rowData headers fs) =
      ExcelParser.extractDescription.go L rowData headers fs := by
  induction fs with
  | nil => rfl
  | cons f fs ih =>
    rw [ExcelParser.extractDescription.go.eq_def]
    dsimp only
    split
    · exact jsTrim_idem _
    · split
      · split
        · exact jsTrim_idem _
        · exact ih
      · exact ih

theorem excel_extractDescription_trim (L : Libs) (rowData : List (String × Cell))
    (headers : List String) :
    jsTrim (ExcelParser.extractDescription L rowData headers) =
      ExcelParser.extractDescription L rowData headers :=
  excelDesc_go_trim L rowData headers excelDescFields

theorem csvDesc_go_trim (row : List (String × String)) (fs : List String) :
    jsTrim (CSVParser.extractDescription.go row fs) =
      CSVParser.extractDescription.go row fs := by
  induction fs with
  | nil => rfl
  | cons f fs ih =>
    rw [CSVParser.extractDescription.go.eq_def]
    dsimp only
    split
    · exact jsTrim_idem _
    · exact ih

theorem csv_extractDescription_trim (row : List (String × String)) :
    jsTrim (CSVParser.extractDescription row) = CSVParser.extractDescription row :=
  csvDesc_go_trim row _

/-- Every record kept by `parseExcelRow` has a non-empty (trimmed)
description and — whenever the extracted amount is finite, i.e. not an
explicit `Infinity` literal, which has no `ℚ` image — a positive
amount. -/
theorem parseExcelRow_wf (L : Libs) (headers : List String) (row : List Cell) :
    (ExcelParser.parseExcelRow L headers row).elim True
      (fun t => t.description ≠ "" ∧
        ((ExcelParser.extractAmount L (ExcelParser.rowRecord headers row)
            headers).1.isInf = false → 0 < t.amount)) := by
  simp only [ExcelParser.parseExcelRow]
  split
  · exact trivial
  · split
    · exact trivial
    · rename_i hcond
      have hz : (ExcelParser.extractAmount L (ExcelParser.rowRecord headers row)
          headers).1.isZero = false := by
        by_cases hzz : (ExcelParser.extractAmount L (ExcelParser.rowRecord headers row)
            headers).1.isZero = true
        · exact absurd (by simp [hzz]) hcond
        · rw [Bool.not_eq_true] at hzz
          exact hzz
      refine ⟨?_, ?_⟩
      · rw [excel_extractDescription_trim]
        intro hd
        dsimp only at hd
        exact hcond (by simp only [Bool.or_eq_true, decide_eq_true_eq]; exact Or.inl hd)
      · intro hinf
        dsimp only
        rcases hAT : (ExcelParser.extractAmount L (ExcelParser.rowRecord headers row)
            headers).1 with q | b
        · rw [hAT] at hz
          simp only [JsFloat.abs, JsFloat.toRat]
          rw [abs_pos]
          intro h0
          rw [JsFloat.isZero] at hz
          simp only [decide_eq_false_iff_not] at hz
          exact hz h0
        · rw [hAT] at hinf
          simp [JsFloat.isInf] at hinf

/-- Every record kept by `parseCSVRow` has a non-empty (trimmed)
description and — whenever the extracted amount is finite — a positive
amount. -/
theorem parseCSVRow_wf (L : Libs) (row : List (String × String)) :
    (CSVParser.parseCSVRow L row).elim True
      (fun t => t.description ≠ "" ∧
        ((CSVParser.extractAmount row).1.isInf = false → 0 < t.amount)) := by
  simp only [CSVParser.parseCSVRow]
  split
  · exact trivial
  · split
    · exact trivial
    · rename_i hcond
      have hz : (CSVParser.extractAmount row).1.isZero = false := by
        by_cases hzz : (CSVParser.extractAmount row).1.isZero = true
        · exact absurd (by simp [hzz]) hcond
        · rw [Bool.not_eq_true] at hzz
          exact hzz
      refine ⟨?_, ?_⟩
      · rw [csv_extractDescription_trim]
        intro hd
        dsimp only at hd
        exact hcond (by simp only [Bool.or_eq_true, decide_eq_true_eq]; exact Or.inl hd)
      · intro hinf
        dsimp only
        rcases hAT : (CSVParser.extractAmount row).1 with q | b
        · rw [hAT] at hz
          simp only [JsFloat.abs, JsFloat.toRat]
          rw [abs_pos]
          intro h0
          rw [JsFloat.isZero] at hz
          simp only [decide_eq_false_iff_not] at hz
          exact hz h0
        · rw [hAT] at hinf
          simp [JsFloat.isInf] at hinf

theorem processExtract_err {L : Libs} {buf : List Nat} {ft : String} {e : ParseErr}
    (h : parseFile L buf ft = Except.error e) :
    processStatementExtract L buf ft = Except.error (ProcErr.parse e) := by
  simp only [processStatementExtract, h]

theorem processExtract_nil {L : Libs} {buf : List Nat} {ft : String}
    (h : parseFile L buf ft = Except.ok []) :
    processStatementExtract L buf ft = Except.error ProcErr.noTransactionsFound := by
  simp only [processStatementExtract, h, List.length_nil]
  rw [if_pos trivial]

theorem processExtract_ok {L : Libs} {buf : List Nat} {ft : String} {l : List Tx}
    (h : parseFile L buf ft = Except.ok l) (hl : l ≠ []) :
    processStatementExtract L buf ft = Except.ok l := by
  simp only [processStatementExtract, h]
  rw [if_neg (fun hz => hl (List.length_eq_zero.mp hz))]

/-- Every error of `ExcelParser.parse` is the catch-all
`Failed to parse Excel file` error. -/
theorem excelParse_error {L : Libs} {buf : List Nat} {e : ParseErr}
    (h : ExcelParser.parse L buf = Except.error e) : e = ParseErr.failedExcel := by
  simp only [ExcelParser.parse] at h
  rcases hxr : L.xlsxRead buf with _ | data
  · simp only [hxr] at h
    injection h with h
    exact h.symm
  · simp only [hxr] at h
    by_cases hl : data.length = 0
    · rw [if_pos hl] at h
      injection h with h
      exact h.symm
    · rw [if_neg hl] at h
      rcases hext : ExcelParser.extractTransactionsFromData L data with u | l
      · rw [hext] at h
        injection h with h
        exact h.symm
      · rw [hext] at h
        exact absurd h (by simp)

/-- A `Libs` instance whose document libraries fail, and whose
spreadsheet grid has a single 1-cell row (so no header row can be
found). -/
def L3 : Libs :=
  { numToStr := fun _ => "", parseISO := fun _ => none, parseFmt := fun _ _ => none,
    jsDate := fun _ => none, ssfDate := fun _ => none,
    pdfParseLib := fun _ => none, pdfDialect := fun _ _ => [],
    xlsxRead := fun _ => some [[Cell.str "x"]], csvRows := fun _ => none }

/-- Counterexample to C3 as stated: for declared supported file types
the extraction layer raises errors other than `NoTransactionsFound` and
`UnsupportedFileType`.  An Excel file whose grid has no recognizable
header row fails with `Failed to parse Excel file`, an unparseable PDF
with `Failed to parse PDF file`, and a CSV stream error propagates —
all distinct from the two error kinds the claim allows. -/
theorem C3_counterexample :
    processStatementExtract L3 [] "xlsx" =
      Except.error (ProcErr.parse ParseErr.failedExcel) ∧
    processStatementExtract L3 [] "pdf" =
      Except.error (ProcErr.parse ParseErr.failedPDF) ∧
    processStatementExtract L3 [] "csv" =
      Except.error (ProcErr.parse ParseErr.csvStream) ∧
    ProcErr.parse ParseErr.failedExcel ≠ ProcErr.noTransactionsFound ∧
    ProcErr.parse ParseErr.failedExcel ≠ ProcErr.parse (ParseErr.unsupported "xlsx") := by
  refine ⟨rfl, rfl, rfl, by decide, by decide⟩

/-- C3 (amended): extraction dispatches on the lowercased file type;
unknown types fail with `Unsupported file type`.  For a supported type
the run either produces a non-empty list of records, fails with
`NoTransactionsFound` exactly when the parser returned zero records,
or fails with a parser-level error (`Failed to parse PDF file`,
`Failed to parse Excel file` — also raised when the spreadsheet has no
recognizable header row — or a CSV stream error).  Malformed
individual Excel/CSV rows are dropped (`filterMap`), never aborting
the batch, and every kept Excel/CSV row has a non-empty trimmed
description and a positive (finite) amount.  No such well-formedness
guarantee holds for the PDF family: its rows come from the per-dialect
line parsers (`Libs.pdfDialect`), which push records without an
amount-positivity check (`parseAccessBankPDF`,
`extractOPayTransaction`). -/
theorem C3_extractor_robustness (L : Libs) (buf : List Nat) (ft : String) :
    ((jsToLower ft ∉ (["pdf", "csv", "xlsx", "xls"] : List String) ∧
        processStatementExtract L buf ft =
          Except.error (ProcErr.parse (ParseErr.unsupported ft))) ∨
      (parseFile L buf ft = Except.ok [] ∧
        processStatementExtract L buf ft = Except.error ProcErr.noTransactionsFound) ∨
      (∃ l, l ≠ [] ∧ parseFile L buf ft = Except.ok l ∧
        processStatementExtract L buf ft = Except.ok l) ∨
      (∃ e, (e = ParseErr.failedPDF ∨ e = ParseErr.failedExcel ∨ e = ParseErr.csvStream) ∧
        processStatementExtract L buf ft = Except.error (ProcErr.parse e))) ∧
    (∀ headers row, (ExcelParser.parseExcelRow L headers row).elim True
      (fun t => t.description ≠ "" ∧
        ((ExcelParser.extractAmount L (ExcelParser.rowRecord headers row)
            headers).1.isInf = false → 0 < t.amount))) ∧
    ((L.csvRows buf).elim True
      (fun rows => CSVParser.parse L buf =
        Except.ok (rows.filterMap (CSVParser.parseCSVRow L)))) ∧
    (∀ row, (CSVParser.parseCSVRow L row).elim True
      (fun t => t.description ≠ "" ∧
        ((CSVParser.extractAmount row).1.isInf = false → 0 < t.amount))) := by
  refine ⟨?_, fun headers row => parseExcelRow_wf L headers row, ?_,
    fun row => parseCSVRow_wf L row⟩
  · by_cases h1 : jsToLower ft = "pdf"
    · have hpf : parseFile L buf ft = PDFParser.parse L buf := by
        simp [parseFile, h1]
      rcases hpl : L.pdfParseLib buf with _ | text
      · refine Or.inr (Or.inr (Or.inr ⟨ParseErr.failedPDF, Or.inl rfl, ?_⟩))
        exact processExtract_err (by rw [hpf]; simp [PDFParser.parse, hpl])
      · have hok : parseFile L buf ft =
            Except.ok (L.pdfDialect (PDFParser.detectBankType text) text) := by
          rw [hpf]
          simp [PDFParser.parse, hpl]
        rcases eq_or_ne (L.pdfDialect (PDFParser.detectBankType text) text) [] with hl | hl
        · exact Or.inr (Or.inl ⟨hl ▸ hok, processExtract_nil (hl ▸ hok)⟩)
        · exact Or.inr (Or.inr (Or.inl ⟨_, hl, hok, processExtract_ok hok hl⟩))
    · by_cases h2 : jsToLower ft = "csv"
      · have hpf : parseFile L buf ft = CSVParser.parse L buf := by
          simp [parseFile, h2]
        rcases hcr : L.csvRows buf with _ | rows
        · refine Or.inr (Or.inr (Or.inr ⟨ParseErr.csvStream, Or.inr (Or.inr rfl), ?_⟩))
          exact processExtract_err (by rw [hpf]; simp [CSVParser.parse, hcr])
        · have hok : parseFile L buf ft =
              Except.ok (rows.filterMap (CSVParser.parseCSVRow L)) := by
            rw [hpf]
            simp [CSVParser.parse, hcr]
          rcases eq_or_ne (rows.filterMap (CSVParser.parseCSVRow L)) [] with hl | hl
          · exact Or.inr (Or.inl ⟨hl ▸ hok, processExtract_nil (hl ▸ hok)⟩)
          · exact Or.inr (Or.inr (Or.inl ⟨_, hl, hok, processExtract_ok hok hl⟩))
      · by_cases h3 : jsToLower ft = "xlsx" ∨ jsToLower ft = "xls"
        · have hpf : parseFile L buf ft = ExcelParser.parse L buf := by
            rcases h3 with h3 | h3
            · simp [parseFile, h3]
            · simp [parseFile, h3]
          rcases hex : ExcelParser.parse L buf with e | l
          · refine Or.inr (Or.inr (Or.inr
              ⟨e, Or.inr (Or.inl (excelParse_error hex)), ?_⟩))
            exact processExtract_err (by rw [hpf, hex])
          · rcases eq_or_ne l [] with hl | hl
            · subst hl
              exact Or.inr (Or.inl ⟨by rw [hpf, hex],
                processExtract_nil (by rw [hpf, hex])⟩)
            · exact Or.inr (Or.inr (Or.inl ⟨l, hl, by rw [hpf, hex],
                processExtract_ok (by rw [hpf, hex]) hl⟩))
        · rcases not_or.mp h3 with ⟨h3a, h3b⟩
          refine Or.inl ⟨?_, ?_⟩
          · simp [h1, h2, h3a, h3b]
          · exact processExtract_err (by simp [parseFile, h1, h2, h3a, h3b])
  · rcases hcr : L.csvRows buf with _ | rows
    · simp [hcr]
    · simp [hcr, CSVParser.parse]

end FinanceTracker
